import Mathlib

/-!
Verification development for the joplin-du plugin (`src/index.ts`).

The whole report generator is the `getSpace` function of the plugin (plus its
helper `createTempNote`).  We embed it shallowly:

* Joplin's data API is an `Env`: the resource store contents, the reverse
  linkage `notesFor`, folder titles, the currently selected folder, and
  per-request failure flags (a failed `await` throws, modelled as `Except`).
* every API call the code makes is recorded as an `Ev` event, so statements
  about request counts, retries and the note lifecycle are statements about
  the event trace.
* JavaScript objects used as string-keyed maps (`resourceData`,
  `notebookNames`, `notebookSizes`) are association lists in insertion order,
  which is the enumeration order of `Object.keys` for non-index string keys.
* `Array.prototype.sort` (stable since ES2019) with comparator
  `(a, b) => b.size - a.size` is a stable descending sort, embedded as a
  stable insertion sort `sortDescBy`.
* `(sizeInBytes / (1024*1024)).toFixed(2)`: division by `2^20` is exact in
  double precision for integer inputs below `2^53`, and `toFixed(2)` picks the
  integer numerator closest to the value, taking the larger on ties (round
  half up); `centiMB` computes that numerator over `Nat`.
-/

namespace JoplinDu

/-- Page size used by the resource listing loop (`limit: pageSize`). -/
def pageSize : Nat := 100

/-- Resource record as fetched with fields `id`, `size`, `title`. -/
structure Resource where
  id : String
  size : Nat
  title : String
deriving DecidableEq, Repr

/-- Note record as fetched with fields `id`, `title`, `parent_id`. -/
structure Note where
  id : String
  title : String
  parent_id : String
deriving DecidableEq, Repr

/-- Record pushed onto `resourceData[notebookId]` in `getSpace`. -/
structure LinkItem where
  resourceTitle : String
  resourceSizeMB : String
  resourceSize : Nat
  noteTitle : String
  noteLink : String
  noteId : String
  id : String
deriving DecidableEq, Repr

/-- The Joplin data API as seen by one run of the plugin. -/
structure Env where
  selFolder : Option String
  store : List Resource
  notesFor : String → List Note
  folderTitle : String → String
  failList : Nat → Bool
  failNotes : String → Bool
  failFolder : String → Bool

/-- Errors a run can end with: a rejected API call propagating uncaught, the
`TypeError` from dereferencing a missing current folder, or fuel exhaustion
(proved unreachable for the fuel `collectResources` supplies). -/
inductive Err where
  | outOfFuel
  | noSelection
  | listFail (page : Nat)
  | notesFail (resourceId : String)
  | folderFail (folderId : String)
deriving DecidableEq, Repr

/-- One API request issued by the run, in order. -/
inductive Ev where
  | listPage (page : Nat) (limit : Nat)
  | fetchNotes (resourceId : String)
  | fetchFolder (folderId : String)
  | postNote (noteId : String) (title : String) (parent : String) (body : String)
  | openNote (noteId : String)
  | deleteNote (noteId : String)
deriving DecidableEq, Repr

def isListPage : Ev → Bool
  | Ev.listPage _ _ => true
  | _ => false

def isFetchNotes : Ev → Bool
  | Ev.fetchNotes _ => true
  | _ => false

def isFetchFolder : Ev → Bool
  | Ev.fetchFolder _ => true
  | _ => false

def isPost : Ev → Bool
  | Ev.postNote _ _ _ _ => true
  | _ => false

def isDelete : Ev → Bool
  | Ev.deleteNote _ => true
  | _ => false

/-- Effect of one trace event on the set of existing notes: `postNote`
creates a note, `deleteNote` removes it. -/
def noteStep (acc : List String) (e : Ev) : List String :=
  match e with
  | Ev.postNote i _ _ _ => acc ++ [i]
  | Ev.deleteNote i => acc.filter (fun j => j != i)
  | _ => acc

/-- Notes that exist at the end of a trace. -/
def notesAfter (evs : List Ev) : List String :=
  evs.foldl noteStep []

/-- Result of `joplin.data.get(['resources'], {page, limit})` on the store:
the requested slice, and `has_more` when later pages exist. -/
def listPageResult (store : List Resource) (page : Nat) : List Resource × Bool :=
  ((store.drop ((page - 1) * pageSize)).take pageSize, decide (page * pageSize < store.length))

/-- The `do … while (response.has_more)` listing loop of `getSpace`: request
page 1, 2, … concatenating `items` until `has_more` is false.  Structural
fuel makes the recursion well founded; `collectResources` supplies enough. -/
def collectGo (env : Env) : Nat → Nat → List Ev × Except Err (List Resource)
  | 0, _ => ([], Except.error Err.outOfFuel)
  | fuel + 1, page =>
    if env.failList page then
      ([Ev.listPage page pageSize], Except.error (Err.listFail page))
    else
      let res := listPageResult env.store page
      if res.2 then
        match collectGo env fuel (page + 1) with
        | (evs, Except.ok rest) => (Ev.listPage page pageSize :: evs, Except.ok (res.1 ++ rest))
        | (evs, Except.error e) => (Ev.listPage page pageSize :: evs, Except.error e)
      else
        ([Ev.listPage page pageSize], Except.ok res.1)

/-- The paginated collector of `getSpace`, starting at page 1. -/
def collectResources (env : Env) : List Ev × Except Err (List Resource) :=
  collectGo env (env.store.length + 1) 1

/-- Number of page requests the collector issues for a store of `n` items:
at least one request, then one per started chunk of `pageSize`. -/
def reqCount (n : Nat) : Nat := max 1 ((n + pageSize - 1) / pageSize)

/-- Numerator of `(n / (1024*1024)).toFixed(2)` times 100: the integer `k`
minimising the distance of `k/100` to `n/2^20`, rounding half up. -/
def centiMB (n : Nat) : Nat := (200 * n + 1048576) / 2097152

/-- Two-digit zero padded decimal fraction. -/
def pad2 (m : Nat) : String := if m < 10 then "0" ++ toString m else toString m

/-- Model of `formatSize` in `getSpace`: bytes to a megabyte string with two
decimal places. -/
def formatSize (n : Nat) : String :=
  toString (centiMB n / 100) ++ "." ++ pad2 (centiMB n % 100)

/-- Lookup in a JavaScript object used as a string-keyed map. -/
def getA (m : List (String × α)) (k : String) : Option α :=
  (m.find? (fun p => p.1 == k)).map (fun p => p.2)

/-- Assignment `m[k] = v` on a JavaScript object: an existing key keeps its
position, a new key is appended. -/
def setA (m : List (String × α)) (k : String) (v : α) : List (String × α) :=
  if (m.find? (fun p => p.1 == k)).isSome then
    m.map (fun p => if p.1 = k then (k, v) else p)
  else m ++ [(k, v)]

/-- The record `getSpace` pushes for one (resource, linked note) pair,
with the `|| 'Untitled'` / `|| 'Untitled Note'` defaults. -/
def mkItem (resource : Resource) (note : Note) : LinkItem :=
  { resourceTitle := if resource.title = "" then "Untitled" else resource.title
    resourceSizeMB := formatSize resource.size
    resourceSize := resource.size
    noteTitle := if note.title = "" then "Untitled Note" else note.title
    noteLink := ":/" ++ note.id
    noteId := note.id
    id := resource.id }

/-- Accumulator state of the main loop of `getSpace`: the three objects
`resourceData`, `notebookNames`, `notebookSizes`. -/
structure BuildSt where
  resourceData : List (String × List LinkItem)
  notebookNames : List (String × String)
  notebookSizes : List (String × Nat)
deriving DecidableEq, Repr

/-- The unconditional updates of the inner loop body: push the entry onto
`resourceData[notebookId]` and add the size to `notebookSizes[notebookId]`
(the `if (!…)` initialisations make the missing-key cases explicit). -/
def pushEntry (st : BuildSt) (resource : Resource) (note : Note) : BuildSt :=
  let notebookId := note.parent_id
  let cur := (getA st.resourceData notebookId).getD []
  let curSize := (getA st.notebookSizes notebookId).getD 0
  { st with
    resourceData := setA st.resourceData notebookId (cur ++ [mkItem resource note])
    notebookSizes := setA st.notebookSizes notebookId (curSize + resource.size) }

/-- Body of the inner `for (let note of linkedNotes.items)` loop:
`if (!notebookNames[notebookId])` fetches the folder (JavaScript falsiness:
a missing entry or an empty cached title), then the entry is pushed. -/
def procNote (env : Env) (resource : Resource) (st : BuildSt) (note : Note) :
    List Ev × Except Err BuildSt :=
  let notebookId := note.parent_id
  let nameMiss : Bool :=
    match getA st.notebookNames notebookId with
    | none => true
    | some t => t == ""
  if nameMiss then
    if env.failFolder notebookId then
      ([Ev.fetchFolder notebookId], Except.error (Err.folderFail notebookId))
    else
      ([Ev.fetchFolder notebookId],
       Except.ok (pushEntry
         { st with notebookNames := setA st.notebookNames notebookId (env.folderTitle notebookId) }
         resource note))
  else
    ([], Except.ok (pushEntry st resource note))

/-- The inner loop over the notes linked to one resource. -/
def procNotes (env : Env) (resource : Resource) : BuildSt → List Note → List Ev × Except Err BuildSt
  | st, [] => ([], Except.ok st)
  | st, n :: ns =>
    match procNote env resource st n with
    | (evs, Except.error e) => (evs, Except.error e)
    | (evs, Except.ok st2) =>
      match procNotes env resource st2 ns with
      | (evs2, r) => (evs ++ evs2, r)

/-- The outer `for (let resource of resources)` loop: fetch the linked notes
of each resource in turn, then run the inner loop. -/
def procResources (env : Env) : BuildSt → List Resource → List Ev × Except Err BuildSt
  | st, [] => ([], Except.ok st)
  | st, r :: rs =>
    if env.failNotes r.id then
      ([Ev.fetchNotes r.id], Except.error (Err.notesFail r.id))
    else
      match procNotes env r st (env.notesFor r.id) with
      | (evs, Except.error e) => (Ev.fetchNotes r.id :: evs, Except.error e)
      | (evs, Except.ok st2) =>
        match procResources env st2 rs with
        | (evs2, r2) => (Ev.fetchNotes r.id :: (evs ++ evs2), r2)

/-- The aggregation phase of `getSpace` starting from the three empty
objects. -/
def buildLoop (env : Env) (resources : List Resource) : List Ev × Except Err BuildSt :=
  procResources env ⟨[], [], []⟩ resources

/-- Stable insert for a descending sort on a `Nat` key. -/
def insertDescBy (key : α → Nat) (x : α) : List α → List α
  | [] => [x]
  | y :: ys => if key y ≤ key x then x :: y :: ys else y :: insertDescBy key x ys

/-- Stable descending sort on a `Nat` key; extensionally the ES2019-stable
`Array.prototype.sort` with comparator `(a, b) => key(b) - key(a)`. -/
def sortDescBy (key : α → Nat) : List α → List α
  | [] => []
  | x :: xs => insertDescBy key x (sortDescBy key xs)

/-- Concatenation of the pieces a string-building loop appends. -/
def strJoin : List String → String
  | [] => ""
  | s :: rest => s ++ strJoin rest

/-- One markdown link line `  - [title](:/id)` of a resource block. -/
def noteLine (q : LinkItem) : String :=
  "  - [" ++ q.noteTitle ++ "](" ++ q.noteLink ++ ")\n"

/-- One rendered resource block: title, size and id of the chosen entry `r`,
then one link line per entry of the notebook whose resource id equals `r`'s
(the code filters `notebookResources` by `r.id === resource.id`). -/
def resourceBlock (all : List LinkItem) (r : LinkItem) : String :=
  "- **Resource**: \"" ++ r.resourceTitle ++ "\"\n" ++
  "  - **Size:** " ++ r.resourceSizeMB ++ " MB\n" ++
  "  - **ID:** " ++ r.id ++ "\n" ++
  strJoin ((all.filter (fun q => q.id == r.id)).map noteLine) ++
  "\n"

/-- The rendering loop over a notebook's entries with its `printedResources`
set: an entry whose `resourceTitle` was already printed is skipped, otherwise
its block is emitted and the title recorded. -/
def renderEntriesStr (all : List LinkItem) : List LinkItem → List String → String
  | [], _ => ""
  | r :: rest, printed =>
    if printed.contains r.resourceTitle then renderEntriesStr all rest printed
    else resourceBlock all r ++ renderEntriesStr all rest (r.resourceTitle :: printed)

/-- The entries whose blocks the rendering loop emits, in order: the first
entry of each distinct `resourceTitle` not yet in `printed`. -/
def reps : List LinkItem → List String → List LinkItem
  | [], _ => []
  | r :: rest, printed =>
    if printed.contains r.resourceTitle then reps rest printed
    else r :: reps rest (r.resourceTitle :: printed)

/-- Header of the report followed by the table-of-contents marker. -/
def headerStr : String := "# Joplin Disk Usage Report\n\n[toc]\n\n"

/-- Entries of a notebook's section in display order:
`notebookResources.sort((a, b) => b.resourceSize - a.resourceSize)`. -/
def sectionEntriesOf (data : List (String × List LinkItem)) (nb : String) : List LinkItem :=
  sortDescBy (fun q => q.resourceSize) ((getA data nb).getD [])

/-- One `##` notebook section: heading with cached name and formatted total,
then the deduplicated resource blocks. -/
def renderNotebookSection (names : List (String × String)) (data : List (String × List LinkItem))
    (nb : String × Nat) : String :=
  let notebookName := (getA names nb.1).getD "undefined"
  let sortedEntries := sectionEntriesOf data nb.1
  "## 📓 \"" ++ notebookName ++ "\" (Total size: " ++ formatSize nb.2 ++ " MB)\n\n" ++
  renderEntriesStr sortedEntries sortedEntries []

/-- The full report body: header, then the notebook sections sorted by total
size descending. -/
def renderReport (names : List (String × String)) (data : List (String × List LinkItem))
    (sizes : List (String × Nat)) : String :=
  headerStr ++ strJoin ((sortDescBy (fun q => q.2) sizes).map (renderNotebookSection names data))

def tmpBody : String := "Wait ... processing"

def reportTitle : String := "Joplin Disk Usage Report"

/-- Identifier the host assigns to the placeholder note (first created). -/
def tmpNoteId : String := "n0"

/-- Identifier the host assigns to the report note (second created). -/
def reportNoteId : String := "n1"

/-- The whole `getSpace` run, `createTempNote` included: dereferencing the
selected folder (a `TypeError` when there is none), posting and opening the
placeholder, collecting, aggregating, rendering, posting the report, and
deleting the placeholder.  The result is the event trace and the outcome. -/
def getSpace (env : Env) : List Ev × Except Err Unit :=
  match env.selFolder with
  | none => ([], Except.error Err.noSelection)
  | some folder =>
    let evs0 := [Ev.postNote tmpNoteId reportTitle folder tmpBody, Ev.openNote tmpNoteId]
    match collectResources env with
    | (evs1, Except.error e) => (evs0 ++ evs1, Except.error e)
    | (evs1, Except.ok resources) =>
      match buildLoop env resources with
      | (evs2, Except.error e) => (evs0 ++ evs1 ++ evs2, Except.error e)
      | (evs2, Except.ok st) =>
        let body := renderReport st.notebookNames st.resourceData st.notebookSizes
        match env.selFolder with
        | none => (evs0 ++ evs1 ++ evs2, Except.error Err.noSelection)
        | some folder2 =>
          (evs0 ++ evs1 ++ evs2 ++
            [Ev.postNote reportNoteId reportTitle folder2 body,
             Ev.openNote reportNoteId, Ev.deleteNote tmpNoteId],
           Except.ok ())

/-- All (resource, linked note) pairs a run generates, in processing order:
one LinkEntry per pair. -/
def allPairs (env : Env) (resources : List Resource) : List (Resource × Note) :=
  resources.flatMap (fun r => (env.notesFor r.id).map (fun n => (r, n)))

/-- LinkEntries of notebook `nb` among a pair sequence, in order. -/
def dataSpec (pairs : List (Resource × Note)) (nb : String) : List LinkItem :=
  (pairs.filter (fun p => p.2.parent_id == nb)).map (fun p => mkItem p.1 p.2)

/-- LinkEntries a run over `env` generates for notebook `nb`. -/
def nbEntries (env : Env) (resources : List Resource) (nb : String) : List LinkItem :=
  dataSpec (allPairs env resources) nb

/-- Sum of `resourceSize` over a list of entries. -/
def entriesSize (l : List LinkItem) : Nat := (l.map (fun q => q.resourceSize)).sum

/-- Invariant of the aggregation loop after the (resource, note) pairs
`pairs` have been processed: `resourceData` holds exactly the per-notebook
entry lists of `pairs`, `notebookSizes` their sums, and the two objects have
the same duplicate-free key sequence. -/
def Inv (pairs : List (Resource × Note)) (st : BuildSt) : Prop :=
  st.resourceData.map Prod.fst = st.notebookSizes.map Prod.fst ∧
  (st.resourceData.map Prod.fst).Nodup ∧
  (∀ nb, getA st.resourceData nb
      = if dataSpec pairs nb = [] then none else some (dataSpec pairs nb)) ∧
  (∀ nb, getA st.notebookSizes nb
      = if dataSpec pairs nb = [] then none else some (entriesSize (dataSpec pairs nb)))

/-- State a run of the aggregation phase ends in (the empty state if the
phase fails). -/
def buildStOf (env : Env) : BuildSt :=
  match (buildLoop env env.store).2 with
  | Except.ok st => st
  | Except.error _ => ⟨[], [], []⟩

/-- Store of 250 distinct resources for exercising the pagination claim. -/
def envC3 : Env :=
  { selFolder := some "f0"
    store := (List.range 250).map (fun i => { id := "r", size := i, title := "" })
    notesFor := fun _ => []
    folderTitle := fun _ => ""
    failList := fun _ => false
    failNotes := fun _ => false
    failFolder := fun _ => false }

/-- One resource referenced by one note, for exercising the totals claim. -/
def envC1 : Env :=
  { selFolder := some "f0"
    store := [{ id := "r1", size := 42, title := "T" }]
    notesFor := fun rid => if rid = "r1" then [{ id := "x1", title := "N", parent_id := "nb" }] else []
    folderTitle := fun _ => "NB"
    failList := fun _ => false
    failNotes := fun _ => false
    failFolder := fun _ => false }

/-- The aggregation state `envC1` ends in. -/
def stC1 : BuildSt :=
  { resourceData := [("nb", [mkItem { id := "r1", size := 42, title := "T" }
      { id := "x1", title := "N", parent_id := "nb" }])]
    notebookNames := [("nb", "NB")]
    notebookSizes := [("nb", 42)] }

/-- One resource referenced from two notebooks, for the cross-notebook claim. -/
def envC5 : Env :=
  { selFolder := some "f0"
    store := [{ id := "r1", size := 100, title := "pic" }]
    notesFor := fun rid => if rid = "r1" then
        [{ id := "x1", title := "A", parent_id := "nb1" },
         { id := "x2", title := "B", parent_id := "nb2" }] else []
    folderTitle := fun _ => "NB"
    failList := fun _ => false
    failNotes := fun _ => false
    failFolder := fun _ => false }

/-- Two distinct resources sharing a title, the smaller one also referenced
from a second notebook: the title-dedup shadows its block in the first
notebook's section. -/
def envC5ce : Env :=
  { selFolder := some "f0"
    store := [{ id := "a", size := 1, title := "t" }, { id := "b", size := 5, title := "t" }]
    notesFor := fun rid =>
      if rid = "a" then
        [{ id := "n1", title := "One", parent_id := "nb1" },
         { id := "n3", title := "Three", parent_id := "nb2" }]
      else if rid = "b" then [{ id := "n2", title := "Two", parent_id := "nb1" }]
      else []
    folderTitle := fun _ => "NB"
    failList := fun _ => false
    failNotes := fun _ => false
    failFolder := fun _ => false }

/-- Entries of two distinct resources sharing one title in one notebook. -/
def ceA : LinkItem := mkItem { id := "a", size := 2, title := "t" }
  { id := "na", title := "N1", parent_id := "nb" }

def ceB : LinkItem := mkItem { id := "b", size := 1, title := "t" }
  { id := "nx", title := "N2", parent_id := "nb" }

def ceList : List LinkItem := [ceA, ceB]

/-- Entries of one resource referenced by two notes of the same notebook
(the end-to-end scenario of the specification). -/
def demoEntries : List LinkItem :=
  [mkItem { id := "r1", size := 2097152, title := "diagram.png" }
     { id := "n1", title := "Plans", parent_id := "inb" },
   mkItem { id := "r1", size := 2097152, title := "diagram.png" }
     { id := "n2", title := "Ideas", parent_id := "inb" }]

/-- Empty store, for the empty-report claim. -/
def envC10 : Env :=
  { selFolder := some "f0"
    store := []
    notesFor := fun _ => []
    folderTitle := fun _ => ""
    failList := fun _ => false
    failNotes := fun _ => false
    failFolder := fun _ => false }

/-- No notebook is selected. -/
def envC8 : Env := { envC10 with selFolder := none }

/-- The first page request fails. -/
def envC7 : Env := { envC1 with failList := fun p => p == 1 }

/-! ### Collector lemmas -/

theorem collectGo_events (env : Env) :
    ∀ fuel page, ∃ k, (collectGo env fuel page).1
      = (List.range' page k).map (fun p => Ev.listPage p pageSize) := by
  intro fuel
  induction fuel with
  | zero => intro page; exact ⟨0, rfl⟩
  | succ f ih =>
    intro page
    by_cases hf : env.failList page
    · exact ⟨1, by simp [collectGo, hf]⟩
    · by_cases hm : (listPageResult env.store page).2
      · obtain ⟨k, hk⟩ := ih (page + 1)
        refine ⟨k + 1, ?_⟩
        rw [List.range'_succ]
        rcases h : collectGo env f (page + 1) with ⟨evs, r⟩
        rw [h] at hk
        have hk2 : evs = List.map (fun p => Ev.listPage p pageSize) (List.range' (page + 1) k) := hk
        cases r with
        | ok rest => simp [collectGo, hf, hm, h, hk2]
        | error e => simp [collectGo, hf, hm, h, hk2]
      · exact ⟨1, by simp [collectGo, hf, hm]⟩

theorem collectGo_ok (env : Env) :
    ∀ fuel page out, 1 ≤ page →
      (collectGo env fuel page).2 = Except.ok out →
      out = env.store.drop ((page - 1) * pageSize) := by
  intro fuel
  induction fuel with
  | zero => intro page out _ h; simp [collectGo] at h
  | succ f ih =>
    intro page out hp h
    by_cases hf : env.failList page
    · simp [collectGo, hf] at h
    · by_cases hm : (listPageResult env.store page).2
      · simp only [listPageResult, decide_eq_true_eq] at hm
        rcases hc : collectGo env f (page + 1) with ⟨evs, r⟩
        cases r with
        | ok rest =>
          simp only [collectGo, hf, Bool.false_eq_true, if_false, listPageResult,
            decide_eq_true_eq, hm, if_true, hc, Except.ok.injEq] at h
          have hrest : rest = env.store.drop ((page + 1 - 1) * pageSize) := by
            apply ih (page + 1) rest (by omega)
            rw [hc]
          have hstep : (page + 1 - 1) * pageSize = (page - 1) * pageSize + pageSize := by
            simp only [pageSize]; omega
          rw [hstep, ← List.drop_drop] at hrest
          rw [← h, hrest, List.take_append_drop]
        | error e =>
          simp only [collectGo, hf, Bool.false_eq_true, if_false, listPageResult,
            decide_eq_true_eq, hm, if_true, hc] at h
          exact absurd h (by simp)
      · simp only [listPageResult, decide_eq_true_eq] at hm
        simp only [collectGo, hf, Bool.false_eq_true, if_false, listPageResult,
          decide_eq_true_eq, hm, if_false, Except.ok.injEq] at h
        have hlen : (env.store.drop ((page - 1) * pageSize)).length ≤ pageSize := by
          rw [List.length_drop]
          simp only [pageSize] at hm ⊢
          omega
        rw [← h, List.take_of_length_le hlen]

theorem reqCount_le_page (r : Nat) (h : r ≤ 100) : reqCount r = 1 := by
  have h1 : (r + 99) / 100 < 2 :=
    (Nat.div_lt_iff_lt_mul (by norm_num)).mpr (by omega)
  simp only [reqCount, pageSize]
  omega

theorem reqCount_step (r : Nat) (h : 100 < r) : reqCount r = reqCount (r - 100) + 1 := by
  obtain ⟨t, rfl⟩ : ∃ t, r = t + 101 := ⟨r - 101, by omega⟩
  have e2 : (t + 100 + 100) / 100 = (t + 100) / 100 + 1 := Nat.add_div_right _ (by norm_num)
  have e3 : (t + 100) / 100 = t / 100 + 1 := Nat.add_div_right _ (by norm_num)
  simp only [reqCount, pageSize]
  have e1 : t + 101 + 100 - 1 = t + 100 + 100 := by omega
  have e4 : t + 101 - 100 + 100 - 1 = t + 100 := by omega
  rw [e1, e4, e2, e3]
  omega

theorem collectGo_no_fail (env : Env) (hL : ∀ p, env.failList p = false) :
    ∀ fuel page, 1 ≤ page → 1 ≤ fuel →
      env.store.length ≤ (page - 1 + fuel) * pageSize →
      (collectGo env fuel page).2
        = Except.ok (env.store.drop ((page - 1) * pageSize)) ∧
      (collectGo env fuel page).1
        = (List.range' page (reqCount (env.store.length - (page - 1) * pageSize))).map
            (fun p => Ev.listPage p pageSize) := by
  intro fuel
  induction fuel with
  | zero => intro page _ h2 _; omega
  | succ f ih =>
    intro page hp _ hlen
    by_cases hm : (listPageResult env.store page).2
    · simp only [listPageResult, decide_eq_true_eq] at hm
      have hf1 : 1 ≤ f := by
        by_contra hc
        have : f = 0 := by omega
        subst this
        simp only [pageSize] at hm hlen
        omega
      have ihh := ih (page + 1) (by omega) hf1
        (by simp only [pageSize] at hlen ⊢; omega)
      have hr : 100 < env.store.length - (page - 1) * pageSize := by
        simp only [pageSize] at hm ⊢; omega
      rcases hc : collectGo env f (page + 1) with ⟨evs, r⟩
      rw [hc] at ihh
      obtain ⟨ihok, ihevs⟩ := ihh
      simp only at ihok ihevs
      subst ihok
      constructor
      · simp only [collectGo, hL page, Bool.false_eq_true, if_false, listPageResult,
          decide_eq_true_eq, hm, if_true, hc]
        have hstep : (page + 1 - 1) * pageSize = (page - 1) * pageSize + pageSize := by
          simp only [pageSize]; omega
        rw [hstep, ← List.drop_drop, List.take_append_drop]
      · simp only [collectGo, hL page, Bool.false_eq_true, if_false, listPageResult,
          decide_eq_true_eq, hm, if_true, hc]
        rw [reqCount_step _ (by simpa [pageSize] using hr), List.range'_succ]
        have harg : env.store.length - (page - 1) * pageSize - 100
            = env.store.length - (page + 1 - 1) * pageSize := by
          simp only [pageSize]; omega
        simp only [pageSize] at harg ihevs ⊢
        rw [← harg] at ihevs
        simp [ihevs]
    · simp only [listPageResult, decide_eq_true_eq, not_lt] at hm
      constructor
      · simp only [collectGo, hL page, Bool.false_eq_true, if_false, listPageResult,
          decide_eq_true_eq]
        rw [if_neg (by omega)]
        have hdl : (env.store.drop ((page - 1) * pageSize)).length ≤ pageSize := by
          rw [List.length_drop]
          simp only [pageSize] at hm ⊢
          omega
        rw [List.take_of_length_le hdl]
      · simp only [collectGo, hL page, Bool.false_eq_true, if_false, listPageResult,
          decide_eq_true_eq]
        rw [if_neg (by omega)]
        rw [reqCount_le_page _ (by simp only [pageSize] at hm ⊢; omega)]
        simp [List.range'_succ]

theorem collect_no_fail (env : Env) (hL : ∀ p, env.failList p = false) :
    collectResources env
      = ((List.range' 1 (reqCount env.store.length)).map (fun p => Ev.listPage p pageSize),
         Except.ok env.store) := by
  have h := collectGo_no_fail env hL (env.store.length + 1) 1 (by omega) (by omega)
    (by simp only [pageSize]; omega)
  simp only [Nat.sub_self, Nat.zero_mul, List.drop_zero, Nat.sub_zero] at h
  rcases hc : collectGo env (env.store.length + 1) 1 with ⟨evs, r⟩
  rw [hc] at h
  obtain ⟨h1, h2⟩ := h
  simp only at h1 h2
  simp [collectResources, hc, h1, h2]

theorem collect_ok_store (env : Env) (out : List Resource)
    (h : (collectResources env).2 = Except.ok out) : out = env.store := by
  have := collectGo_ok env (env.store.length + 1) 1 out (by omega) h
  simpa using this

theorem collect_events (env : Env) :
    ∃ k, (collectResources env).1
      = (List.range' 1 k).map (fun p => Ev.listPage p pageSize) :=
  collectGo_events env (env.store.length + 1) 1

/-! ### Stable descending sort lemmas -/

theorem mem_insertDescBy (key : α → Nat) (x : α) :
    ∀ (l : List α) (a : α), a ∈ insertDescBy key x l ↔ a = x ∨ a ∈ l := by
  intro l
  induction l with
  | nil => intro a; simp [insertDescBy]
  | cons y ys ih =>
    intro a
    by_cases h : key y ≤ key x
    · simp [insertDescBy, h]
    · simp only [insertDescBy, h, if_false, List.mem_cons, ih]
      tauto

theorem pairwise_insertDescBy (key : α → Nat) (x : α) :
    ∀ l, List.Pairwise (fun a b => key b ≤ key a) l →
      List.Pairwise (fun a b => key b ≤ key a) (insertDescBy key x l) := by
  intro l
  induction l with
  | nil => intro _; simp [insertDescBy]
  | cons y ys ih =>
    intro hp
    rcases List.pairwise_cons.mp hp with ⟨hy, hys⟩
    by_cases h : key y ≤ key x
    · simp only [insertDescBy, h, if_true]
      refine List.pairwise_cons.mpr ⟨?_, hp⟩
      intro b hb
      rcases List.mem_cons.mp hb with rfl | hb2
      · exact h
      · exact le_trans (hy b hb2) h
    · simp only [insertDescBy, h, if_false]
      refine List.pairwise_cons.mpr ⟨?_, ih hys⟩
      intro b hb
      rcases (mem_insertDescBy key x ys b).mp hb with rfl | hb2
      · omega
      · exact hy b hb2

theorem insertDescBy_perm (key : α → Nat) (x : α) :
    ∀ l, (insertDescBy key x l).Perm (x :: l) := by
  intro l
  induction l with
  | nil => simp [insertDescBy]
  | cons y ys ih =>
    by_cases h : key y ≤ key x
    · simp [insertDescBy, h]
    · simp only [insertDescBy, h, if_false]
      exact (ih.cons y).trans (List.Perm.swap x y ys)

theorem sortDescBy_perm (key : α → Nat) : ∀ l, (sortDescBy key l).Perm l := by
  intro l
  induction l with
  | nil => simp [sortDescBy]
  | cons x xs ih =>
    simp only [sortDescBy]
    exact (insertDescBy_perm key x _).trans (ih.cons x)

theorem sortDescBy_pairwise (key : α → Nat) :
    ∀ l, List.Pairwise (fun a b => key b ≤ key a) (sortDescBy key l) := by
  intro l
  induction l with
  | nil => simp [sortDescBy]
  | cons x xs ih => exact pairwise_insertDescBy key x _ ih

theorem insertDescBy_filter_of_eq (key : α → Nat) (x : α) (s : Nat) (hx : key x = s) :
    ∀ l, (insertDescBy key x l).filter (fun a => key a == s)
      = x :: l.filter (fun a => key a == s) := by
  intro l
  induction l with
  | nil => simp [insertDescBy, List.filter, hx]
  | cons y ys ih =>
    by_cases h : key y ≤ key x
    · rw [insertDescBy, if_pos h, List.filter_cons]
      simp [hx]
    · have hyb : (key y == s) = false := by
        simp only [beq_eq_false_iff_ne]
        omega
      rw [insertDescBy, if_neg h, List.filter_cons, List.filter_cons, hyb]
      simp only [Bool.false_eq_true, if_false, ih]

theorem insertDescBy_filter_of_ne (key : α → Nat) (x : α) (s : Nat) (hx : key x ≠ s) :
    ∀ l, (insertDescBy key x l).filter (fun a => key a == s)
      = l.filter (fun a => key a == s) := by
  have hxb : (key x == s) = false := by simp only [beq_eq_false_iff_ne]; exact hx
  intro l
  induction l with
  | nil => simp [insertDescBy, List.filter, hxb]
  | cons y ys ih =>
    by_cases h : key y ≤ key x
    · simp [insertDescBy, h, List.filter_cons, hxb]
    · simp only [insertDescBy, h, if_false, List.filter_cons, ih]

theorem sortDescBy_filter (key : α → Nat) (s : Nat) :
    ∀ l, (sortDescBy key l).filter (fun a => key a == s)
      = l.filter (fun a => key a == s) := by
  intro l
  induction l with
  | nil => rfl
  | cons x xs ih =>
    by_cases hx : key x = s
    · rw [sortDescBy, insertDescBy_filter_of_eq key x s hx, ih, List.filter_cons]
      simp [hx]
    · rw [sortDescBy, insertDescBy_filter_of_ne key x s hx, ih, List.filter_cons]
      simp [hx]

/-! ### Association list lemmas -/

theorem getA_cons (p : String × α) (m : List (String × α)) (k : String) :
    getA (p :: m) k = if p.1 = k then some p.2 else getA m k := by
  by_cases h : p.1 = k
  · rw [getA, List.find?_cons_of_pos _ (by simp [h]), if_pos h]
    rfl
  · rw [getA, List.find?_cons_of_neg _ (by simp [h]), if_neg h]
    rfl

theorem getA_map_upd (k : String) (v : α) :
    ∀ (m : List (String × α)) (k2 : String), k2 ≠ k →
      getA (m.map (fun p => if p.1 = k then (k, v) else p)) k2 = getA m k2 := by
  intro m
  induction m with
  | nil => intro k2 _; rfl
  | cons p m ih =>
    intro k2 hne
    by_cases h : p.1 = k
    · rw [List.map_cons]
      simp only [h, if_true]
      rw [getA_cons, getA_cons, if_neg hne.symm, if_neg (by rw [h]; exact hne.symm), ih _ hne]
    · rw [List.map_cons]
      simp only [h, if_false]
      rw [getA_cons, getA_cons]
      by_cases h2 : p.1 = k2
      · simp [h2]
      · rw [if_neg h2, if_neg h2, ih _ hne]

theorem getA_append_right (k : String) (v : α) :
    ∀ (m : List (String × α)), getA m k = none → getA (m ++ [(k, v)]) k = some v := by
  intro m
  induction m with
  | nil => intro _; simp [getA_cons]
  | cons p m ih =>
    intro h
    rw [getA_cons] at h
    by_cases hp : p.1 = k
    · rw [if_pos hp] at h; exact absurd h (by simp)
    · rw [if_neg hp] at h
      rw [List.cons_append, getA_cons, if_neg hp]
      exact ih h

theorem getA_append_ne (k k2 : String) (v : α) (hne : k2 ≠ k) :
    ∀ (m : List (String × α)), getA (m ++ [(k, v)]) k2 = getA m k2 := by
  intro m
  induction m with
  | nil => simp [getA_cons, hne.symm, getA]
  | cons p m ih =>
    rw [List.cons_append, getA_cons, getA_cons, ih]

theorem getA_isSome_iff (k : String) :
    ∀ (m : List (String × α)), (getA m k).isSome ↔ k ∈ m.map Prod.fst := by
  intro m
  induction m with
  | nil => simp [getA]
  | cons p m ih =>
    rw [getA_cons]
    by_cases h : p.1 = k
    · simp [h]
    · simp only [if_neg h, ih, List.map_cons, List.mem_cons]
      constructor
      · exact fun hh => Or.inr hh
      · rintro (hh | hh)
        · exact absurd hh.symm h
        · exact hh

theorem getA_find_isSome_iff (k : String) (m : List (String × α)) :
    (m.find? (fun p => p.1 == k)).isSome ↔ k ∈ m.map Prod.fst := by
  rw [← getA_isSome_iff]
  simp [getA, Option.isSome_map]

theorem getA_map_upd_self (k : String) (v : α) :
    ∀ (m : List (String × α)), k ∈ m.map Prod.fst →
      getA (m.map (fun p => if p.1 = k then (k, v) else p)) k = some v := by
  intro m
  induction m with
  | nil => intro h; simp at h
  | cons p m ih =>
    intro h
    by_cases hp : p.1 = k
    · rw [List.map_cons]
      simp only [hp, if_true]
      rw [getA_cons]
      simp
    · rw [List.map_cons]
      simp only [hp, if_false]
      rw [getA_cons, if_neg hp]
      apply ih
      simp only [List.map_cons, List.mem_cons] at h
      rcases h with h | h
      · exact absurd h.symm hp
      · exact h

theorem getA_setA_self (m : List (String × α)) (k : String) (v : α) :
    getA (setA m k v) k = some v := by
  by_cases hs : (m.find? (fun p => p.1 == k)).isSome
  · rw [setA, if_pos hs]
    exact getA_map_upd_self k v m ((getA_find_isSome_iff k m).mp hs)
  · rw [setA, if_neg hs]
    apply getA_append_right
    have hnone : m.find? (fun p => p.1 == k) = none := by
      rcases hf : m.find? (fun p => p.1 == k) with _ | p
      · exact hf
      · rw [hf] at hs; simp at hs
    rw [getA, hnone]
    rfl

theorem getA_setA_ne (m : List (String × α)) (k k2 : String) (v : α) (hne : k2 ≠ k) :
    getA (setA m k v) k2 = getA m k2 := by
  by_cases hs : (m.find? (fun p => p.1 == k)).isSome
  · rw [setA, if_pos hs]
    exact getA_map_upd k v m k2 hne
  · rw [setA, if_neg hs]
    exact getA_append_ne k k2 v hne m

theorem keys_setA_mem (m : List (String × α)) (k : String) (v : α)
    (h : k ∈ m.map Prod.fst) :
    (setA m k v).map Prod.fst = m.map Prod.fst := by
  rw [setA, if_pos ((getA_find_isSome_iff k m).mpr h)]
  rw [List.map_map]
  apply List.map_congr_left
  intro p _
  by_cases hp : p.1 = k
  · simp [hp]
  · simp [hp]

theorem keys_setA_new (m : List (String × α)) (k : String) (v : α)
    (h : k ∉ m.map Prod.fst) :
    (setA m k v).map Prod.fst = m.map Prod.fst ++ [k] := by
  rw [setA, if_neg (fun hs => h ((getA_find_isSome_iff k m).mp hs))]
  simp

theorem getA_eq_none_iff (m : List (String × α)) (k : String) :
    getA m k = none ↔ k ∉ m.map Prod.fst := by
  constructor
  · intro h hk
    have hh := (getA_isSome_iff k m).mpr hk
    rw [h] at hh
    simp at hh
  · intro h
    rcases hv : getA m k with _ | v
    · rfl
    · exact absurd ((getA_isSome_iff k m).mp (by rw [hv]; rfl)) h

theorem mem_of_getA_eq_some (m : List (String × α)) (k : String) (v : α)
    (h : getA m k = some v) : (k, v) ∈ m := by
  rw [getA] at h
  rcases hf : m.find? (fun p => p.1 == k) with _ | p
  · rw [hf] at h; exact absurd h (by simp)
  · rw [hf] at h
    have hp := List.find?_some hf
    have hm := List.mem_of_find?_eq_some hf
    simp only [beq_iff_eq] at hp
    have hv : p.2 = v := by simpa using h
    have hpkv : p = (k, v) := by
      rcases p with ⟨a, b⟩
      simp [Prod.ext_iff]
      exact ⟨hp, hv⟩
    rw [← hpkv]
    exact hm

theorem getA_of_mem_nodup (k : String) (v : α) :
    ∀ (m : List (String × α)), (m.map Prod.fst).Nodup → (k, v) ∈ m →
      getA m k = some v := by
  intro m
  induction m with
  | nil => intro _ h; simp at h
  | cons p m ih =>
    intro hnd hm
    rw [List.map_cons] at hnd
    rcases List.nodup_cons.mp hnd with ⟨hp1, hp2⟩
    rcases List.mem_cons.mp hm with rfl | hm2
    · rw [getA_cons, if_pos rfl]
    · rw [getA_cons]
      have hk : p.1 ≠ k := by
        intro hh
        apply hp1
        rw [hh]
        exact List.mem_map.mpr ⟨(k, v), hm2, rfl⟩
      rw [if_neg hk]
      exact ih hp2 hm2

/-! ### Aggregation loop invariant -/

theorem dataSpec_append_one (pairs : List (Resource × Note)) (p : Resource × Note) (nb : String) :
    dataSpec (pairs ++ [p]) nb
      = dataSpec pairs nb ++ (if p.2.parent_id = nb then [mkItem p.1 p.2] else []) := by
  by_cases h : p.2.parent_id = nb
  · simp [dataSpec, List.filter_append, h]
  · simp [dataSpec, List.filter_append, h]

theorem pushEntry_inv (pairs : List (Resource × Note)) (st : BuildSt)
    (r : Resource) (n : Note) (h : Inv pairs st) :
    Inv (pairs ++ [(r, n)]) (pushEntry st r n) := by
  obtain ⟨hkeys, hnd, hdata, hsizes⟩ := h
  have hcur : (getA st.resourceData n.parent_id).getD [] = dataSpec pairs n.parent_id := by
    rw [hdata n.parent_id]
    by_cases hh : dataSpec pairs n.parent_id = [] <;> simp [hh]
  have hcurS : (getA st.notebookSizes n.parent_id).getD 0
      = entriesSize (dataSpec pairs n.parent_id) := by
    rw [hsizes n.parent_id]
    by_cases hh : dataSpec pairs n.parent_id = [] <;> simp [hh, entriesSize]
  have hes : ∀ ds, entriesSize (ds ++ [mkItem r n]) = entriesSize ds + r.size := by
    intro ds
    simp [entriesSize, mkItem]
  refine ⟨?_, ?_, ?_, ?_⟩
  · by_cases hmem : n.parent_id ∈ st.resourceData.map Prod.fst
    · rw [pushEntry]
      simp only
      rw [keys_setA_mem _ _ _ hmem, keys_setA_mem _ _ _ (hkeys ▸ hmem), hkeys]
    · rw [pushEntry]
      simp only
      rw [keys_setA_new _ _ _ hmem, keys_setA_new _ _ _ (fun hh => hmem (hkeys ▸ hh)), hkeys]
  · by_cases hmem : n.parent_id ∈ st.resourceData.map Prod.fst
    · rw [pushEntry]
      simp only
      rw [keys_setA_mem _ _ _ hmem]
      exact hnd
    · rw [pushEntry]
      simp only
      rw [keys_setA_new _ _ _ hmem]
      rw [← List.concat_eq_append]
      exact hnd.concat hmem
  · intro nb2
    by_cases h2 : nb2 = n.parent_id
    · subst h2
      rw [pushEntry]
      simp only
      rw [getA_setA_self, hcur, dataSpec_append_one]
      simp
    · rw [pushEntry]
      simp only
      rw [getA_setA_ne _ _ _ _ h2, hdata nb2, dataSpec_append_one,
        if_neg (show ¬n.parent_id = nb2 from fun hh => h2 hh.symm)]
      simp
  · intro nb2
    by_cases h2 : nb2 = n.parent_id
    · subst h2
      rw [pushEntry]
      simp only
      rw [getA_setA_self, hcurS, dataSpec_append_one, if_pos rfl]
      rw [if_neg (by simp)]
      rw [hes]
    · rw [pushEntry]
      simp only
      rw [getA_setA_ne _ _ _ _ h2, hsizes nb2, dataSpec_append_one,
        if_neg (show ¬n.parent_id = nb2 from fun hh => h2 hh.symm)]
      simp

theorem procNote_inv (env : Env) (pairs : List (Resource × Note)) (r : Resource) (n : Note)
    (st st2 : BuildSt) (evs : List Ev)
    (hrun : procNote env r st n = (evs, Except.ok st2)) (h : Inv pairs st) :
    Inv (pairs ++ [(r, n)]) st2 := by
  rcases hg : getA st.notebookNames n.parent_id with _ | t
  · by_cases hf : env.failFolder n.parent_id
    · simp [procNote, hg, hf] at hrun
    · simp [procNote, hg, hf] at hrun
      rw [← hrun.2]
      exact pushEntry_inv pairs _ r n h
  · by_cases ht : t == ""
    · by_cases hf : env.failFolder n.parent_id
      · simp [procNote, hg, ht, hf] at hrun
      · simp [procNote, hg, ht, hf] at hrun
        rw [← hrun.2]
        exact pushEntry_inv pairs _ r n h
    · simp [procNote, hg, ht] at hrun
      rw [← hrun.2]
      exact pushEntry_inv pairs st r n h

theorem procNotes_inv (env : Env) (r : Resource) :
    ∀ (ns : List Note) (pairs : List (Resource × Note)) (st st2 : BuildSt) (evs : List Ev),
      procNotes env r st ns = (evs, Except.ok st2) → Inv pairs st →
      Inv (pairs ++ ns.map (fun n => (r, n))) st2 := by
  intro ns
  induction ns with
  | nil =>
    intro pairs st st2 evs hrun h
    simp [procNotes] at hrun
    rw [← hrun.2]
    simpa using h
  | cons n ns ih =>
    intro pairs st st2 evs hrun h
    rcases hPN : procNote env r st n with ⟨evs1, r1⟩
    cases r1 with
    | error e => simp [procNotes, hPN] at hrun
    | ok stm =>
      rcases hR : procNotes env r stm ns with ⟨evs2, r2⟩
      simp [procNotes, hPN, hR] at hrun
      have hInvM := procNote_inv env pairs r n st stm evs1 hPN h
      have hmain := ih (pairs ++ [(r, n)]) stm st2 evs2 (by rw [hR, hrun.2]) hInvM
      simpa [List.append_assoc] using hmain

theorem procResources_inv (env : Env) :
    ∀ (rs : List Resource) (pairs : List (Resource × Note)) (st st2 : BuildSt) (evs : List Ev),
      procResources env st rs = (evs, Except.ok st2) → Inv pairs st →
      Inv (pairs ++ allPairs env rs) st2 := by
  intro rs
  induction rs with
  | nil =>
    intro pairs st st2 evs hrun h
    simp [procResources] at hrun
    rw [← hrun.2]
    simpa [allPairs] using h
  | cons r rs ih =>
    intro pairs st st2 evs hrun h
    by_cases hf : env.failNotes r.id
    · simp [procResources, hf] at hrun
    · rcases hPN : procNotes env r st (env.notesFor r.id) with ⟨evs1, r1⟩
      cases r1 with
      | error e => simp [procResources, hf, hPN] at hrun
      | ok stm =>
        rcases hR : procResources env stm rs with ⟨evs2, r2⟩
        simp [procResources, hf, hPN, hR] at hrun
        have hInvM := procNotes_inv env r (env.notesFor r.id) pairs st stm evs1 hPN h
        have hmain := ih (pairs ++ (env.notesFor r.id).map (fun n => (r, n))) stm st2 evs2
          (by rw [hR, hrun.2]) hInvM
        simpa [allPairs, List.append_assoc] using hmain

theorem buildLoop_inv (env : Env) (resources : List Resource) (st : BuildSt) (evs : List Ev)
    (h : buildLoop env resources = (evs, Except.ok st)) :
    Inv (allPairs env resources) st := by
  have h0 : Inv [] ⟨[], [], []⟩ := by
    refine ⟨rfl, List.nodup_nil, ?_, ?_⟩ <;> intro nb <;> simp [getA, dataSpec]
  have hmain := procResources_inv env resources [] ⟨[], [], []⟩ st evs h h0
  simpa using hmain

/-! ### Success and event classification of the aggregation loop -/

theorem procNote_no_fail (env : Env) (hF : ∀ s2, env.failFolder s2 = false)
    (r : Resource) (st : BuildSt) (n : Note) :
    ∃ evs st2, procNote env r st n = (evs, Except.ok st2) := by
  rcases h : procNote env r st n with ⟨evs, res⟩
  cases res with
  | ok st2 => exact ⟨evs, st2, rfl⟩
  | error e =>
    exfalso
    rcases hg : getA st.notebookNames n.parent_id with _ | t
    · simp [procNote, hg, hF n.parent_id] at h
    · by_cases ht : t == ""
      · simp [procNote, hg, ht, hF n.parent_id] at h
      · simp [procNote, hg, ht] at h

theorem procNotes_no_fail (env : Env) (hF : ∀ s2, env.failFolder s2 = false) (r : Resource) :
    ∀ (ns : List Note) (st : BuildSt),
      ∃ evs st2, procNotes env r st ns = (evs, Except.ok st2) := by
  intro ns
  induction ns with
  | nil => intro st; exact ⟨[], st, rfl⟩
  | cons n ns ih =>
    intro st
    obtain ⟨evs1, stm, h1⟩ := procNote_no_fail env hF r st n
    obtain ⟨evs2, st2, h2⟩ := ih stm
    exact ⟨evs1 ++ evs2, st2, by simp [procNotes, h1, h2]⟩

theorem procResources_no_fail (env : Env) (hN : ∀ s2, env.failNotes s2 = false)
    (hF : ∀ s2, env.failFolder s2 = false) :
    ∀ (rs : List Resource) (st : BuildSt),
      ∃ evs st2, procResources env st rs = (evs, Except.ok st2) := by
  intro rs
  induction rs with
  | nil => intro st; exact ⟨[], st, rfl⟩
  | cons r rs ih =>
    intro st
    obtain ⟨evs1, stm, h1⟩ := procNotes_no_fail env hF r (env.notesFor r.id) st
    obtain ⟨evs2, st2, h2⟩ := ih stm
    exact ⟨Ev.fetchNotes r.id :: (evs1 ++ evs2), st2, by simp [procResources, hN, h1, h2]⟩

theorem procNote_events (env : Env) (r : Resource) (st : BuildSt) (n : Note)
    (evs : List Ev) (res : Except Err BuildSt) (h : procNote env r st n = (evs, res)) :
    ∀ e ∈ evs, isFetchFolder e = true := by
  rcases hg : getA st.notebookNames n.parent_id with _ | t
  · by_cases hf : env.failFolder n.parent_id
    · simp [procNote, hg, hf] at h
      obtain ⟨h1, h2⟩ := h
      subst h1
      intro e he
      simp at he
      simp [he, isFetchFolder]
    · simp [procNote, hg, hf] at h
      obtain ⟨h1, h2⟩ := h
      subst h1
      intro e he
      simp at he
      simp [he, isFetchFolder]
  · by_cases ht : t == ""
    · by_cases hf : env.failFolder n.parent_id
      · simp [procNote, hg, ht, hf] at h
        obtain ⟨h1, h2⟩ := h
        subst h1
        intro e he
        simp at he
        simp [he, isFetchFolder]
      · simp [procNote, hg, ht, hf] at h
        obtain ⟨h1, h2⟩ := h
        subst h1
        intro e he
        simp at he
        simp [he, isFetchFolder]
    · simp [procNote, hg, ht] at h
      obtain ⟨h1, h2⟩ := h
      subst h1
      intro e he
      simp at he

theorem procNotes_events (env : Env) (r : Resource) :
    ∀ (ns : List Note) (st : BuildSt) (evs : List Ev) (res : Except Err BuildSt),
      procNotes env r st ns = (evs, res) →
      ∀ e ∈ evs, isFetchFolder e = true := by
  intro ns
  induction ns with
  | nil =>
    intro st evs res h
    simp [procNotes] at h
    obtain ⟨h1, h2⟩ := h
    subst h1
    intro e he
    simp at he
  | cons n ns ih =>
    intro st evs res h
    rcases hPN : procNote env r st n with ⟨evs1, r1⟩
    cases r1 with
    | error e1 =>
      simp [procNotes, hPN] at h
      obtain ⟨h1, h2⟩ := h
      subst h1
      exact procNote_events env r st n evs1 (Except.error e1) hPN
    | ok stm =>
      rcases hR : procNotes env r stm ns with ⟨evs2, r2⟩
      simp [procNotes, hPN, hR] at h
      obtain ⟨h1, h2⟩ := h
      subst h1
      intro e he
      rcases List.mem_append.mp he with he1 | he2
      · exact procNote_events env r st n evs1 (Except.ok stm) hPN e he1
      · exact ih stm evs2 r2 hR e he2

theorem procResources_events (env : Env) :
    ∀ (rs : List Resource) (st : BuildSt) (evs : List Ev) (res : Except Err BuildSt),
      procResources env st rs = (evs, res) →
      ∀ e ∈ evs, isFetchNotes e = true ∨ isFetchFolder e = true := by
  intro rs
  induction rs with
  | nil =>
    intro st evs res h
    simp [procResources] at h
    obtain ⟨h1, h2⟩ := h
    subst h1
    intro e he
    simp at he
  | cons r rs ih =>
    intro st evs res h
    by_cases hf : env.failNotes r.id
    · simp [procResources, hf] at h
      obtain ⟨h1, h2⟩ := h
      subst h1
      intro e he
      simp at he
      simp [he, isFetchNotes]
    · rcases hPN : procNotes env r st (env.notesFor r.id) with ⟨evs1, r1⟩
      cases r1 with
      | error e1 =>
        simp [procResources, hf, hPN] at h
        obtain ⟨h1, h2⟩ := h
        subst h1
        intro e he
        rcases List.mem_cons.mp he with rfl | he2
        · simp [isFetchNotes]
        · exact Or.inr (procNotes_events env r (env.notesFor r.id) st evs1 (Except.error e1) hPN e he2)
      | ok stm =>
        rcases hR : procResources env stm rs with ⟨evs2, r2⟩
        simp [procResources, hf, hPN, hR] at h
        obtain ⟨h1, h2⟩ := h
        subst h1
        intro e he
        rcases List.mem_cons.mp he with rfl | he2
        · simp [isFetchNotes]
        · rcases List.mem_append.mp he2 with he3 | he4
          · exact Or.inr (procNotes_events env r (env.notesFor r.id) st evs1 (Except.ok stm) hPN e he3)
          · exact ih stm evs2 r2 hR e he4

theorem procResources_fetchNotes (env : Env) :
    ∀ (rs : List Resource) (st : BuildSt) (evs : List Ev) (res : Except Err BuildSt),
      procResources env st rs = (evs, res) →
      ∃ m, evs.filter isFetchNotes = (rs.take m).map (fun x => Ev.fetchNotes x.id) := by
  intro rs
  induction rs with
  | nil =>
    intro st evs res h
    simp [procResources] at h
    obtain ⟨h1, h2⟩ := h
    subst h1
    exact ⟨0, rfl⟩
  | cons r rs ih =>
    intro st evs res h
    by_cases hf : env.failNotes r.id
    · simp [procResources, hf] at h
      obtain ⟨h1, h2⟩ := h
      subst h1
      exact ⟨1, by simp [isFetchNotes]⟩
    · rcases hPN : procNotes env r st (env.notesFor r.id) with ⟨evs1, r1⟩
      have hno1 : evs1.filter isFetchNotes = [] := by
        apply List.filter_eq_nil_iff.mpr
        intro e he
        have hff := procNotes_events env r (env.notesFor r.id) st evs1 r1 hPN e he
        cases e <;> simp_all [isFetchFolder, isFetchNotes]
      cases r1 with
      | error e1 =>
        simp [procResources, hf, hPN] at h
        obtain ⟨h1, h2⟩ := h
        subst h1
        refine ⟨1, ?_⟩
        rw [List.filter_cons]
        simp [isFetchNotes, hno1]
      | ok stm =>
        rcases hR : procResources env stm rs with ⟨evs2, r2⟩
        simp [procResources, hf, hPN, hR] at h
        obtain ⟨h1, h2⟩ := h
        subst h1
        obtain ⟨m, hm⟩ := ih stm evs2 r2 hR
        refine ⟨m + 1, ?_⟩
        rw [List.filter_cons]
        simp only [isFetchNotes, if_true, List.filter_append, hno1, hm,
          List.nil_append, List.take_succ_cons, List.map_cons]

theorem procResources_no_notes (env : Env) (hN : ∀ s2, env.failNotes s2 = false) :
    ∀ (rs : List Resource), (∀ r2 ∈ rs, env.notesFor r2.id = []) → ∀ st,
      procResources env st rs = (rs.map (fun r2 => Ev.fetchNotes r2.id), Except.ok st) := by
  intro rs
  induction rs with
  | nil => intro _ st; rfl
  | cons r rs ih =>
    intro hnone st
    have hr : env.notesFor r.id = [] := hnone r (List.mem_cons_self r rs)
    have htail := ih (fun r2 h2 => hnone r2 (List.mem_cons_of_mem r h2)) st
    simp [procResources, hN, hr, procNotes, htail]

/-! ### Trace bookkeeping -/

theorem foldl_noteStep_const :
    ∀ (evs : List Ev) (acc : List String),
      (∀ e ∈ evs, isPost e = false ∧ isDelete e = false) →
      evs.foldl noteStep acc = acc := by
  intro evs
  induction evs with
  | nil => intro acc _; rfl
  | cons e evs ih =>
    intro acc h
    have he := h e (List.mem_cons_self e evs)
    have hstep : noteStep acc e = acc := by
      cases e <;> simp_all [noteStep, isPost, isDelete]
    rw [List.foldl_cons, hstep]
    exact ih acc (fun e2 h2 => h e2 (List.mem_cons_of_mem e h2))

/-! ### Sum partition lemmas -/

theorem sum_map_filter_not (f : α → Nat) (p : α → Bool) :
    ∀ l : List α, ((l.filter p).map f).sum + ((l.filter (fun a => !p a)).map f).sum
      = (l.map f).sum := by
  intro l
  induction l with
  | nil => rfl
  | cons a l ih =>
    cases hp : p a <;> simp [List.filter_cons, hp] <;> omega

theorem filter_parent_of_ne (pairs : List (Resource × Note)) (nb nb2 : String) (hne : nb2 ≠ nb) :
    (pairs.filter (fun p => !(p.2.parent_id == nb))).filter (fun p => p.2.parent_id == nb2)
      = pairs.filter (fun p => p.2.parent_id == nb2) := by
  induction pairs with
  | nil => rfl
  | cons p pairs ih =>
    by_cases hp : p.2.parent_id = nb
    · have hb : (p.2.parent_id == nb) = true := by simp [hp]
      have hb2 : (p.2.parent_id == nb2) = false := by
        simp only [beq_eq_false_iff_ne]
        rw [hp]
        exact fun hh => hne hh.symm
      simp [List.filter_cons, hb, hb2, ih]
    · have hb : (p.2.parent_id == nb) = false := by simp [hp]
      simp [List.filter_cons, hb, ih]

theorem sum_partition (f : Resource × Note → Nat) :
    ∀ (ks : List String) (pairs : List (Resource × Note)),
      ks.Nodup →
      (∀ p ∈ pairs, p.2.parent_id ∈ ks) →
      (ks.map (fun nb => ((pairs.filter (fun p => p.2.parent_id == nb)).map f).sum)).sum
        = (pairs.map f).sum := by
  intro ks
  induction ks with
  | nil =>
    intro pairs _ hcov
    have hp : pairs = [] := by
      cases pairs with
      | nil => rfl
      | cons p pairs => exact absurd (hcov p (List.mem_cons_self p pairs)) (by simp)
    simp [hp]
  | cons nb ks ih =>
    intro pairs hnd hcov
    rcases List.nodup_cons.mp hnd with ⟨hnb, hks⟩
    have htail : (ks.map (fun nb2 => ((pairs.filter (fun p => p.2.parent_id == nb2)).map f).sum)).sum
        = (ks.map (fun nb2 => (((pairs.filter (fun p => !(p.2.parent_id == nb))).filter
            (fun p => p.2.parent_id == nb2)).map f).sum)).sum := by
      congr 1
      apply List.map_congr_left
      intro nb2 h2
      rw [filter_parent_of_ne pairs nb nb2 (fun hh => hnb (hh ▸ h2))]
    have hcov2 : ∀ p ∈ pairs.filter (fun p => !(p.2.parent_id == nb)), p.2.parent_id ∈ ks := by
      intro p hp
      rcases List.mem_filter.mp hp with ⟨hmem, hcond⟩
      rcases List.mem_cons.mp (hcov p hmem) with hh | hh
      · exfalso
        simp [hh] at hcond
      · exact hh
    have hmain := ih (pairs.filter (fun p => !(p.2.parent_id == nb))) hks hcov2
    rw [List.map_cons, List.sum_cons, htail, hmain]
    exact sum_map_filter_not f (fun p => p.2.parent_id == nb) pairs

/-! ### Rendering lemmas -/

theorem contains_iff_mem_str (l : List String) (a : String) :
    l.contains a = true ↔ a ∈ l := by
  simp [List.elem_iff]

theorem renderEntriesStr_eq_reps (all : List LinkItem) :
    ∀ (l : List LinkItem) (printed : List String),
      renderEntriesStr all l printed = strJoin ((reps l printed).map (resourceBlock all)) := by
  intro l
  induction l with
  | nil => intro printed; rfl
  | cons r rest ih =>
    intro printed
    by_cases hc : r.resourceTitle ∈ printed
    · simp [renderEntriesStr, reps, hc, ih]
    · simp [renderEntriesStr, reps, hc, ih, strJoin]

theorem reps_subset : ∀ (l : List LinkItem) (printed : List String) (x : LinkItem),
    x ∈ reps l printed → x ∈ l := by
  intro l
  induction l with
  | nil => intro printed x hx; simp [reps] at hx
  | cons r rest ih =>
    intro printed x hx
    by_cases hc : r.resourceTitle ∈ printed
    · rw [reps, if_pos ((contains_iff_mem_str _ _).mpr hc)] at hx
      exact List.mem_cons_of_mem r (ih _ x hx)
    · rw [reps, if_neg (fun hb => hc ((contains_iff_mem_str _ _).mp hb))] at hx
      rcases List.mem_cons.mp hx with rfl | hx2
      · exact List.mem_cons_self x rest
      · exact List.mem_cons_of_mem r (ih _ x hx2)

theorem reps_filter_title :
    ∀ (l : List LinkItem) (printed : List String) (t : String),
      (reps l printed).filter (fun q => q.resourceTitle == t)
        = if t ∈ printed then [] else (l.find? (fun q => q.resourceTitle == t)).toList := by
  intro l
  induction l with
  | nil =>
    intro printed t
    by_cases hc : t ∈ printed <;> simp [reps, hc]
  | cons r rest ih =>
    intro printed t
    by_cases hcr : r.resourceTitle ∈ printed
    · rw [reps, if_pos ((contains_iff_mem_str _ _).mpr hcr), ih]
      by_cases hct : t ∈ printed
      · rw [if_pos hct, if_pos hct]
      · rw [if_neg hct, if_neg hct]
        have hrt : ¬ r.resourceTitle = t := fun hh => hct (hh ▸ hcr)
        rw [List.find?_cons_of_neg _ (by simp [hrt])]
    · rw [reps, if_neg (fun hb => hcr ((contains_iff_mem_str _ _).mp hb)), List.filter_cons]
      by_cases hrt : r.resourceTitle = t
      · subst hrt
        simp only [beq_self_eq_true, if_true]
        rw [ih, if_pos (List.mem_cons_self _ _), if_neg hcr,
          List.find?_cons_of_pos _ (by simp)]
        rfl
      · have hne : (r.resourceTitle == t) = false := by
          simp only [beq_eq_false_iff_ne]
          exact hrt
        rw [hne]
        simp only [Bool.false_eq_true, if_false]
        rw [ih]
        by_cases hct : t ∈ printed
        · rw [if_pos (List.mem_cons_of_mem _ hct), if_pos hct]
        · have hnotc : ¬ t ∈ r.resourceTitle :: printed := by
            intro hx
            rcases List.mem_cons.mp hx with hh | hh
            · exact hrt hh.symm
            · exact hct hh
          rw [if_neg hnotc, if_neg hct, List.find?_cons_of_neg _ (by simp [hrt])]

/-! ### Size formatting lemmas -/

theorem pad2_length : ∀ m : Nat, m < 100 → (pad2 m).length = 2 := by decide

theorem centiMB_bounds (n : Nat) :
    2097152 * centiMB n ≤ 200 * n + 1048576 ∧ 200 * n < 2097152 * centiMB n + 1048576 := by
  have h := Nat.div_add_mod (200 * n + 1048576) 2097152
  have hm : (200 * n + 1048576) % 2097152 < 2097152 := Nat.mod_lt _ (by norm_num)
  unfold centiMB
  omega

theorem entriesSize_dataSpec (pairs : List (Resource × Note)) (nb : String) :
    entriesSize (dataSpec pairs nb)
      = ((pairs.filter (fun p => p.2.parent_id == nb)).map (fun p => p.1.size)).sum := by
  rw [entriesSize, dataSpec, List.map_map]
  rfl

/-! ### Claims -/

/-- C3: for every store contents, the Paginated Collector requests pages of
size 100 with increasing page numbers starting at 1 and concatenates the
returned items until `has_more` is false, returning all items in
server-provided order; given 250 resources it issues exactly 3 page requests
and returns all 250 items in original order. -/
theorem c3_pagination (env : Env) (hL : ∀ p, env.failList p = false) :
    pageSize = 100 ∧
    (collectResources env).2 = Except.ok env.store ∧
    (collectResources env).1
      = (List.range' 1 (reqCount env.store.length)).map (fun p => Ev.listPage p pageSize) ∧
    (env.store.length = 250 → (collectResources env).1.length = 3) := by
  have h := collect_no_fail env hL
  refine ⟨rfl, by rw [h], by rw [h], ?_⟩
  intro h250
  rw [h, List.length_map, List.length_range', h250]
  decide

/-- Witness for C3 at a concrete 250-resource store. -/
theorem c3_pagination_witness :
    (∀ p, envC3.failList p = false) ∧ envC3.store.length = 250 ∧
    ((collectResources envC3).2 = Except.ok envC3.store ∧
      (collectResources envC3).1.length = 3) :=
  ⟨fun _ => rfl, by simp [envC3],
    (c3_pagination envC3 (fun _ => rfl)).2.1,
    (c3_pagination envC3 (fun _ => rfl)).2.2.2 (by simp [envC3])⟩

/-- C9: the size shown in the report is the byte count divided by 1,048,576
rendered with exactly two decimal places (half-up rounding, exact for counts
below `2^53` where doubles represent the count exactly): the displayed
centi-megabyte numerator is within half a hundredth of the exact ratio, the
fraction always has two digits, 1,048,576 renders "1.00" and 1,572,864
renders "1.50". -/
theorem c9_format :
    formatSize 1048576 = "1.00" ∧ formatSize 1572864 = "1.50" ∧
    ∀ n : Nat, n < 2 ^ 53 →
      formatSize n = toString (centiMB n / 100) ++ "." ++ pad2 (centiMB n % 100) ∧
      (pad2 (centiMB n % 100)).length = 2 ∧
      2097152 * centiMB n ≤ 200 * n + 1048576 ∧
      200 * n < 2097152 * centiMB n + 1048576 := by
  refine ⟨by decide, by decide, ?_⟩
  intro n _
  exact ⟨rfl, pad2_length _ (Nat.mod_lt _ (by norm_num)),
    (centiMB_bounds n).1, (centiMB_bounds n).2⟩

/-- Witness for C9 at 1,048,576 bytes. -/
theorem c9_format_witness :
    1048576 < 2 ^ 53 ∧
    (formatSize 1048576 = toString (centiMB 1048576 / 100) ++ "." ++ pad2 (centiMB 1048576 % 100) ∧
     (pad2 (centiMB 1048576 % 100)).length = 2 ∧
     2097152 * centiMB 1048576 ≤ 200 * 1048576 + 1048576 ∧
     200 * 1048576 < 2097152 * centiMB 1048576 + 1048576) :=
  ⟨by norm_num, c9_format.2.2 1048576 (by norm_num)⟩

/-- C8: when no notebook is selected, the run fails (the selected-folder
dereference throws) before any document is created: the trace is empty, no
note is posted, and no note exists afterwards. -/
theorem c8_no_selection (env : Env) (hsel : env.selFolder = none) :
    getSpace env = ([], Except.error Err.noSelection) ∧
    (getSpace env).1.countP isPost = 0 ∧
    notesAfter (getSpace env).1 = [] := by
  have h : getSpace env = ([], Except.error Err.noSelection) := by
    simp [getSpace, hsel]
  exact ⟨h, by rw [h]; rfl, by rw [h]; rfl⟩

/-- Witness for C8 at a concrete environment without a selected notebook. -/
theorem c8_no_selection_witness :
    envC8.selFolder = none ∧
    (getSpace envC8 = ([], Except.error Err.noSelection) ∧
     (getSpace envC8).1.countP isPost = 0 ∧
     notesAfter (getSpace envC8).1 = []) :=
  ⟨rfl, c8_no_selection envC8 rfl⟩

/-- C4: notebook sections are ordered by total size descending with ties in
first-encountered order, and entries inside a section by `resourceSize`
descending with ties in first-seen order: both sorts used by the renderer
are non-increasing on their key, permute their input, and preserve the
relative order of entries with equal keys; the report maps the section
renderer over the sorted notebook sizes. -/
theorem c4_ordering :
    (∀ sizes : List (String × Nat),
      List.Pairwise (fun a b => b.2 ≤ a.2) (sortDescBy (fun q => q.2) sizes) ∧
      (sortDescBy (fun q => q.2) sizes).Perm sizes ∧
      ∀ s : Nat, (sortDescBy (fun q => q.2) sizes).filter (fun a => a.2 == s)
        = sizes.filter (fun a => a.2 == s)) ∧
    (∀ es : List LinkItem,
      List.Pairwise (fun a b => b.resourceSize ≤ a.resourceSize)
        (sortDescBy (fun q => q.resourceSize) es) ∧
      (sortDescBy (fun q => q.resourceSize) es).Perm es ∧
      ∀ s : Nat, (sortDescBy (fun q => q.resourceSize) es).filter (fun a => a.resourceSize == s)
        = es.filter (fun a => a.resourceSize == s)) ∧
    (∀ (names : List (String × String)) (data : List (String × List LinkItem))
        (sizes : List (String × Nat)),
      renderReport names data sizes
        = headerStr ++ strJoin ((sortDescBy (fun q => q.2) sizes).map
            (renderNotebookSection names data))) := by
  refine ⟨fun sizes => ⟨sortDescBy_pairwise _ sizes, sortDescBy_perm _ sizes,
      fun s => sortDescBy_filter _ s sizes⟩,
    fun es => ⟨sortDescBy_pairwise _ es, sortDescBy_perm _ es,
      fun s => sortDescBy_filter _ s es⟩,
    fun names data sizes => rfl⟩

/-- C2 counterexample: two distinct resources with the same title in one
notebook.  The claim says every entry sharing the printed title contributes
a note-link line regardless of resource id; in fact the block of the first
entry (`ceA`, id "a") lists only the entries with id "a", and `ceB`
(id "b", same title, held by note N2) contributes nothing: the whole
rendered section is one block whose only link line is N1's. -/
theorem c2_counterexample :
    ceB.resourceTitle = ceA.resourceTitle ∧
    ceB ∈ ceList ∧
    reps ceList [] = [ceA] ∧
    renderEntriesStr ceList ceList [] = resourceBlock ceList ceA ∧
    ceList.filter (fun q => q.id == ceA.id) = [ceA] ∧
    ceB ∉ ceList.filter (fun q => q.id == ceA.id) ∧
    resourceBlock ceList ceA
      = "- **Resource**: \"t\"\n  - **Size:** 0.00 MB\n  - **ID:** a\n  - [N1](:/na)\n\n" := by
  decide

/-- C2 (amended): within a rendered notebook section, resources are
deduplicated by resource title: the rendering loop emits exactly the blocks
of the first entry of each distinct title (`reps`), a title's block is the
one of the first entry carrying it, and the block's note-link lines are one
line per entry of the notebook whose resource id equals that first entry's
id — entries sharing only the title are omitted; a resource referenced
twice by different notes in the same notebook yields exactly one block with
two note-link lines. -/
theorem c2_amended :
    (∀ (all l : List LinkItem) (printed : List String),
      renderEntriesStr all l printed = strJoin ((reps l printed).map (resourceBlock all))) ∧
    (∀ (l : List LinkItem) (t : String),
      (reps l []).filter (fun q => q.resourceTitle == t)
        = (l.find? (fun q => q.resourceTitle == t)).toList) ∧
    (∀ (all : List LinkItem) (r : LinkItem),
      resourceBlock all r
        = "- **Resource**: \"" ++ r.resourceTitle ++ "\"\n" ++
          "  - **Size:** " ++ r.resourceSizeMB ++ " MB\n" ++
          "  - **ID:** " ++ r.id ++ "\n" ++
          strJoin ((all.filter (fun q => q.id == r.id)).map noteLine) ++ "\n") ∧
    renderEntriesStr demoEntries demoEntries []
      = "- **Resource**: \"diagram.png\"\n  - **Size:** 2.00 MB\n  - **ID:** r1\n  - [Plans](:/n1)\n  - [Ideas](:/n2)\n\n" := by
  refine ⟨fun all l printed => renderEntriesStr_eq_reps all l printed, ?_,
    fun all r => rfl, by decide⟩
  intro l t
  rw [reps_filter_title l [] t, if_neg (List.not_mem_nil t)]

/-- C1: the displayed total of each notebook is the sum of
`resourceSizeBytes` over all LinkEntries of that notebook — one contribution
per (resource, referencing note) pair — and the sum of all rendered
per-notebook totals equals the sum of `resourceSizeBytes` over every
generated LinkEntry. -/
theorem c1_totals (env : Env) (st : BuildSt)
    (h : (buildLoop env env.store).2 = Except.ok st) :
    (∀ p ∈ sortDescBy (fun q => q.2) st.notebookSizes,
      getA st.resourceData p.1 = some (nbEntries env env.store p.1) ∧
      p.2 = entriesSize (nbEntries env env.store p.1)) ∧
    ((sortDescBy (fun q => q.2) st.notebookSizes).map (fun q => q.2)).sum
      = ((allPairs env env.store).map (fun p => p.1.size)).sum := by
  have hb : buildLoop env env.store = ((buildLoop env env.store).1, Except.ok st) := by
    rw [← h]
  obtain ⟨hkeys, hnd, hdata, hsizes⟩ := buildLoop_inv env env.store st _ hb
  have hndS : (st.notebookSizes.map Prod.fst).Nodup := hkeys ▸ hnd
  have hperm := sortDescBy_perm (fun q : String × Nat => q.2) st.notebookSizes
  have hval : ∀ p ∈ st.notebookSizes,
      getA st.resourceData p.1 = some (nbEntries env env.store p.1) ∧
      p.2 = entriesSize (nbEntries env env.store p.1) := by
    intro p hp
    have hget : getA st.notebookSizes p.1 = some p.2 :=
      getA_of_mem_nodup p.1 p.2 st.notebookSizes hndS hp
    rw [hsizes p.1] at hget
    by_cases hds : dataSpec (allPairs env env.store) p.1 = []
    · rw [if_pos hds] at hget
      exact absurd hget (by simp)
    · rw [if_neg hds] at hget
      have hp2 : entriesSize (dataSpec (allPairs env env.store) p.1) = p.2 :=
        Option.some.inj hget
      refine ⟨?_, hp2.symm⟩
      rw [hdata p.1, if_neg hds]
      rfl
  constructor
  · intro p hp
    exact hval p (hperm.mem_iff.mp hp)
  · have hsum1 : ((sortDescBy (fun q => q.2) st.notebookSizes).map (fun q => q.2)).sum
        = (st.notebookSizes.map (fun q => q.2)).sum := (hperm.map _).sum_eq
    have hmap2 : st.notebookSizes.map (fun q => q.2)
        = (st.notebookSizes.map Prod.fst).map (fun nb =>
            (((allPairs env env.store).filter (fun p => p.2.parent_id == nb)).map
              (fun p => p.1.size)).sum) := by
      rw [List.map_map]
      apply List.map_congr_left
      intro q hq
      rw [(hval q hq).2]
      exact entriesSize_dataSpec _ _
    have hcov : ∀ p ∈ allPairs env env.store, p.2.parent_id ∈ st.notebookSizes.map Prod.fst := by
      intro p hp
      have hne : dataSpec (allPairs env env.store) p.2.parent_id ≠ [] := by
        intro hnil
        have hmem : mkItem p.1 p.2 ∈ dataSpec (allPairs env env.store) p.2.parent_id := by
          rw [dataSpec]
          exact List.mem_map.mpr ⟨p, List.mem_filter.mpr ⟨hp, by simp⟩, rfl⟩
        rw [hnil] at hmem
        simp at hmem
      have hg := hsizes p.2.parent_id
      rw [if_neg hne] at hg
      have hks : (getA st.notebookSizes p.2.parent_id).isSome := by rw [hg]; rfl
      exact (getA_isSome_iff _ _).mp hks
    rw [hsum1, hmap2]
    exact sum_partition (fun p => p.1.size) (st.notebookSizes.map Prod.fst)
      (allPairs env env.store) hndS hcov

/-- Witness for C1 at a one-resource, one-note environment. -/
theorem c1_totals_witness :
    (buildLoop envC1 envC1.store).2 = Except.ok stC1 ∧
    ((∀ p ∈ sortDescBy (fun q => q.2) stC1.notebookSizes,
      getA stC1.resourceData p.1 = some (nbEntries envC1 envC1.store p.1) ∧
      p.2 = entriesSize (nbEntries envC1 envC1.store p.1)) ∧
    ((sortDescBy (fun q => q.2) stC1.notebookSizes).map (fun q => q.2)).sum
      = ((allPairs envC1 envC1.store).map (fun p => p.1.size)).sum) :=
  ⟨rfl, c1_totals envC1 stC1 rfl⟩

/-- Helper for C5: in a section whose entries tie the title `T` exactly to
the resource id `rid`, the rendering loop emits exactly one block for `rid`,
and the entries feeding its note-link lines are a permutation of the
notebook's `rid` entries. -/
theorem section_unique_block (es : List LinkItem) (rid T : String)
    (hex : ∃ e ∈ es, e.id = rid)
    (ht : ∀ e ∈ es, (e.resourceTitle = T ↔ e.id = rid)) :
    ((reps (sortDescBy (fun q => q.resourceSize) es) []).filter
        (fun q => q.id == rid)).length = 1 ∧
    ((sortDescBy (fun q => q.resourceSize) es).filter (fun q => q.id == rid)).Perm
      (es.filter (fun q => q.id == rid)) := by
  have hperm : (sortDescBy (fun q => q.resourceSize) es).Perm es := sortDescBy_perm _ es
  refine ⟨?_, hperm.filter _⟩
  have htl : ∀ e ∈ sortDescBy (fun q => q.resourceSize) es,
      (e.resourceTitle = T ↔ e.id = rid) :=
    fun e he => ht e (hperm.mem_iff.mp he)
  have hexl : ∃ e ∈ sortDescBy (fun q => q.resourceSize) es, e.id = rid := by
    obtain ⟨e, he, hid⟩ := hex
    exact ⟨e, hperm.mem_iff.mpr he, hid⟩
  have hcongr : (reps (sortDescBy (fun q => q.resourceSize) es) []).filter
        (fun q => q.id == rid)
      = (reps (sortDescBy (fun q => q.resourceSize) es) []).filter
          (fun q => q.resourceTitle == T) := by
    apply List.filter_congr
    intro x hx
    have hxl := reps_subset _ [] x hx
    rw [Bool.eq_iff_iff]
    simp only [beq_iff_eq]
    exact (htl x hxl).symm
  rw [hcongr, reps_filter_title _ [] T, if_neg (List.not_mem_nil T)]
  have hsome : (List.find? (fun q => q.resourceTitle == T)
      (sortDescBy (fun q => q.resourceSize) es)).isSome := by
    rw [List.find?_isSome]
    obtain ⟨e, hel, hid⟩ := hexl
    refine ⟨e, hel, ?_⟩
    simp only [beq_iff_eq]
    exact (htl e hel).mpr hid
  rcases hf : List.find? (fun q => q.resourceTitle == T)
      (sortDescBy (fun q => q.resourceSize) es) with _ | e
  · rw [hf] at hsome
    simp at hsome
  · rw [hf]
    rfl

/-- C5 counterexample: resource "a" is referenced by notes in the two
different notebooks nb1 and nb2, yet in nb1's section the only block belongs
to the distinct, same-titled, larger resource "b": "a" gets no block there
(the rendered section shows one block with id "b"), refuting the claim that
every such resource appears as a separate block in each notebook section. -/
theorem c5_counterexample :
    (∃ e ∈ nbEntries envC5ce envC5ce.store "nb1", e.id = "a") ∧
    (∃ e ∈ nbEntries envC5ce envC5ce.store "nb2", e.id = "a") ∧
    ("nb1" : String) ≠ "nb2" ∧
    (buildLoop envC5ce envC5ce.store).2 = Except.ok (buildStOf envC5ce) ∧
    ((reps (sectionEntriesOf (buildStOf envC5ce).resourceData "nb1") []).filter
        (fun q => q.id == "a")).length = 0 ∧
    renderNotebookSection (buildStOf envC5ce).notebookNames
        (buildStOf envC5ce).resourceData ("nb1", 6)
      = "## 📓 \"NB\" (Total size: 0.00 MB)\n\n- **Resource**: \"t\"\n  - **Size:** 0.00 MB\n  - **ID:** b\n  - [Two](:/n2)\n\n" :=
  ⟨by decide, by decide, by decide, rfl, by decide, by decide⟩

/-- C5 (amended): for a resource `rid` referenced by notes in two different
notebooks, provided that within each of the two notebooks the entries with
the resource's title are exactly its own entries (no distinct resource
shares the title there), the report renders exactly one block for `rid` in
each of the two sections, and the entries feeding that block's note-link
lines are exactly the (resource, note) pairs of that notebook referencing
`rid` — so each block lists only that notebook's referencing notes, and the
resource is displayed at most once per notebook. -/
theorem c5_amended (env : Env) (rid T nb1 nb2 : String)
    (hN : ∀ s2, env.failNotes s2 = false) (hF : ∀ s2, env.failFolder s2 = false)
    (hne : nb1 ≠ nb2)
    (h1 : ∃ e ∈ nbEntries env env.store nb1, e.id = rid)
    (h2 : ∃ e ∈ nbEntries env env.store nb2, e.id = rid)
    (ht1 : ∀ e ∈ nbEntries env env.store nb1, (e.resourceTitle = T ↔ e.id = rid))
    (ht2 : ∀ e ∈ nbEntries env env.store nb2, (e.resourceTitle = T ↔ e.id = rid)) :
    ∃ evsB st, buildLoop env env.store = (evsB, Except.ok st) ∧
      ∀ nb, nb = nb1 ∨ nb = nb2 →
        getA st.resourceData nb = some (nbEntries env env.store nb) ∧
        ((reps (sectionEntriesOf st.resourceData nb) []).filter
            (fun q => q.id == rid)).length = 1 ∧
        (((sectionEntriesOf st.resourceData nb).filter (fun q => q.id == rid)).map
            (fun q => q.noteId)).Perm
          ((((allPairs env env.store).filter (fun p => p.2.parent_id == nb)).filter
              (fun p => p.1.id == rid)).map (fun p => p.2.id)) := by
  obtain ⟨evsB, st, hb⟩ := procResources_no_fail env hN hF env.store ⟨[], [], []⟩
  have hbb : buildLoop env env.store = (evsB, Except.ok st) := hb
  obtain ⟨hkeys, hnd, hdata, hsizes⟩ := buildLoop_inv env env.store st evsB hbb
  refine ⟨evsB, st, hbb, ?_⟩
  intro nb hcase
  have hex : ∃ e ∈ nbEntries env env.store nb, e.id = rid := by
    rcases hcase with rfl | rfl
    · exact h1
    · exact h2
  have ht : ∀ e ∈ nbEntries env env.store nb, (e.resourceTitle = T ↔ e.id = rid) := by
    rcases hcase with rfl | rfl
    · exact ht1
    · exact ht2
  have hnonempty : dataSpec (allPairs env env.store) nb ≠ [] := by
    obtain ⟨e, he, _⟩ := hex
    intro hnil
    rw [nbEntries, hnil] at he
    simp at he
  have hget : getA st.resourceData nb = some (nbEntries env env.store nb) := by
    rw [hdata nb, if_neg hnonempty]
    rfl
  have hsec : sectionEntriesOf st.resourceData nb
      = sortDescBy (fun q => q.resourceSize) (nbEntries env env.store nb) := by
    rw [sectionEntriesOf, hget]
    rfl
  have hmain := section_unique_block (nbEntries env env.store nb) rid T hex ht
  refine ⟨hget, ?_, ?_⟩
  · rw [hsec]
    exact hmain.1
  · rw [hsec]
    have hfe : (nbEntries env env.store nb).filter (fun q => q.id == rid)
        = (((allPairs env env.store).filter (fun p => p.2.parent_id == nb)).filter
            (fun p => p.1.id == rid)).map (fun p => mkItem p.1 p.2) := by
      rw [nbEntries, dataSpec, List.filter_map]
      rfl
    have hpm := hmain.2.map (fun q => q.noteId)
    rw [hfe, List.map_map] at hpm
    exact hpm

/-- Witness for C5 (amended) at a concrete resource referenced from two
notebooks. -/
theorem c5_amended_witness :
    ((∀ s2, envC5.failNotes s2 = false) ∧ (∀ s2, envC5.failFolder s2 = false) ∧
     ("nb1" : String) ≠ "nb2" ∧
     (∃ e ∈ nbEntries envC5 envC5.store "nb1", e.id = "r1") ∧
     (∃ e ∈ nbEntries envC5 envC5.store "nb2", e.id = "r1") ∧
     (∀ e ∈ nbEntries envC5 envC5.store "nb1", (e.resourceTitle = "pic" ↔ e.id = "r1")) ∧
     (∀ e ∈ nbEntries envC5 envC5.store "nb2", (e.resourceTitle = "pic" ↔ e.id = "r1"))) ∧
    (∃ evsB st, buildLoop envC5 envC5.store = (evsB, Except.ok st) ∧
      ∀ nb, nb = "nb1" ∨ nb = "nb2" →
        getA st.resourceData nb = some (nbEntries envC5 envC5.store nb) ∧
        ((reps (sectionEntriesOf st.resourceData nb) []).filter
            (fun q => q.id == "r1")).length = 1 ∧
        (((sectionEntriesOf st.resourceData nb).filter (fun q => q.id == "r1")).map
            (fun q => q.noteId)).Perm
          ((((allPairs envC5 envC5.store).filter (fun p => p.2.parent_id == nb)).filter
              (fun p => p.1.id == "r1")).map (fun p => p.2.id))) :=
  ⟨⟨fun _ => rfl, fun _ => rfl, by decide, by decide, by decide, by decide, by decide⟩,
   c5_amended envC5 "r1" "pic" "nb1" "nb2" (fun _ => rfl) (fun _ => rfl)
     (by decide) (by decide) (by decide) (by decide) (by decide)⟩

/-- Helper: a trace that posts and opens the placeholder and then performs
only non-post, non-delete work contains one post, no delete, and leaves
exactly the placeholder note behind. -/
theorem orphan_trace_facts (rest : List Ev) (f body : String)
    (hrest : ∀ e ∈ rest, isPost e = false ∧ isDelete e = false) :
    (Ev.postNote tmpNoteId reportTitle f body :: Ev.openNote tmpNoteId :: rest).countP isPost = 1 ∧
    (Ev.postNote tmpNoteId reportTitle f body :: Ev.openNote tmpNoteId :: rest).countP isDelete = 0 ∧
    notesAfter (Ev.postNote tmpNoteId reportTitle f body :: Ev.openNote tmpNoteId :: rest)
      = [tmpNoteId] := by
  have hpostR : rest.countP isPost = 0 := by
    have hfil : rest.filter isPost = [] :=
      List.filter_eq_nil_iff.mpr (fun e he => by simp [(hrest e he).1])
    rw [List.countP_eq_length_filter, hfil]
    rfl
  have hdelR : rest.countP isDelete = 0 := by
    have hfil : rest.filter isDelete = [] :=
      List.filter_eq_nil_iff.mpr (fun e he => by simp [(hrest e he).2])
    rw [List.countP_eq_length_filter, hfil]
    rfl
  refine ⟨?_, ?_, ?_⟩
  · simp [List.countP_cons, isPost, hpostR]
  · simp [List.countP_cons, isDelete, hdelR]
  · rw [notesAfter, List.foldl_cons, List.foldl_cons]
    exact foldl_noteStep_const rest [tmpNoteId] hrest

theorem filter_isListPage_map (l : List Nat) :
    (l.map (fun p => Ev.listPage p pageSize)).filter isListPage
      = l.map (fun p => Ev.listPage p pageSize) :=
  List.filter_eq_self.mpr (by
    intro e he
    obtain ⟨p, _, rfl⟩ := List.mem_map.mp he
    rfl)

theorem filter_isFetchNotes_map_listPage (l : List Nat) :
    (l.map (fun p => Ev.listPage p pageSize)).filter isFetchNotes = [] :=
  List.filter_eq_nil_iff.mpr (by
    intro e he
    obtain ⟨p, _, rfl⟩ := List.mem_map.mp he
    simp [isFetchNotes])

/-- A linkage or folder fetch event is neither a page request nor a post nor
a delete. -/
theorem fetch_event_class (e : Ev) (h : isFetchNotes e = true ∨ isFetchFolder e = true) :
    isListPage e = false ∧ isPost e = false ∧ isDelete e = false := by
  cases e with
  | listPage p l => simp [isFetchNotes, isFetchFolder] at h
  | fetchNotes r => exact ⟨rfl, rfl, rfl⟩
  | fetchFolder fid => exact ⟨rfl, rfl, rfl⟩
  | postNote a b c d => simp [isFetchNotes, isFetchFolder] at h
  | openNote a => simp [isFetchNotes, isFetchFolder] at h
  | deleteNote a => simp [isFetchNotes, isFetchFolder] at h

/-- C6: on every successful run the placeholder note is posted — in the
selected notebook, with the fixed title and the processing body — and opened
before any listing or aggregation request is made; after aggregation the
report is posted as a new note whose body is the rendered report, and only
then is the placeholder deleted, so at the end exactly the report note
exists. -/
theorem c6_lifecycle (env : Env) (h : (getSpace env).2 = Except.ok ()) :
    ∃ f k evsB st,
      env.selFolder = some f ∧
      buildLoop env env.store = (evsB, Except.ok st) ∧
      getSpace env
        = (Ev.postNote tmpNoteId reportTitle f tmpBody :: Ev.openNote tmpNoteId ::
            (((List.range' 1 k).map (fun p => Ev.listPage p pageSize))
              ++ evsB
              ++ [Ev.postNote reportNoteId reportTitle f
                    (renderReport st.notebookNames st.resourceData st.notebookSizes),
                  Ev.openNote reportNoteId, Ev.deleteNote tmpNoteId]),
           Except.ok ()) ∧
      (∀ e ∈ evsB, isPost e = false ∧ isDelete e = false) ∧
      notesAfter (getSpace env).1 = [reportNoteId] := by
  rcases hsel : env.selFolder with _ | f
  · rw [show getSpace env = ([], Except.error Err.noSelection) from by simp [getSpace, hsel]] at h
    exact absurd h (by simp)
  · rcases hc : collectResources env with ⟨evs1, r1⟩
    cases r1 with
    | error e =>
      rw [show getSpace env
          = ([Ev.postNote tmpNoteId reportTitle f tmpBody, Ev.openNote tmpNoteId] ++ evs1,
             Except.error e) from by simp [getSpace, hsel, hc]] at h
      exact absurd h (by simp)
    | ok resources =>
      have hres : resources = env.store := collect_ok_store env resources (by rw [hc])
      subst hres
      rcases hbld : buildLoop env env.store with ⟨evs2, r2⟩
      cases r2 with
      | error e =>
        rw [show getSpace env
            = ([Ev.postNote tmpNoteId reportTitle f tmpBody, Ev.openNote tmpNoteId]
                ++ evs1 ++ evs2, Except.error e) from by simp [getSpace, hsel, hc, hbld]] at h
        exact absurd h (by simp)
      | ok st =>
        obtain ⟨k, hk⟩ := collect_events env
        rw [hc] at hk
        have hk1 : evs1 = (List.range' 1 k).map (fun p => Ev.listPage p pageSize) := hk
        subst hk1
        have hcls : ∀ e ∈ evs2, isPost e = false ∧ isDelete e = false := by
          intro e he
          exact (fetch_event_class e (procResources_events env env.store ⟨[], [], []⟩ evs2
            (Except.ok st) hbld e he)).2
        have hpages : ∀ e ∈ (List.range' 1 k).map (fun p => Ev.listPage p pageSize),
            isPost e = false ∧ isDelete e = false := by
          intro e he
          obtain ⟨p, _, rfl⟩ := List.mem_map.mp he
          exact ⟨rfl, rfl⟩
        have hmain : getSpace env
            = (Ev.postNote tmpNoteId reportTitle f tmpBody :: Ev.openNote tmpNoteId ::
                (((List.range' 1 k).map (fun p => Ev.listPage p pageSize))
                  ++ evs2
                  ++ [Ev.postNote reportNoteId reportTitle f
                        (renderReport st.notebookNames st.resourceData st.notebookSizes),
                      Ev.openNote reportNoteId, Ev.deleteNote tmpNoteId]),
               Except.ok ()) := by
          simp [getSpace, hsel, hc, hbld]
        refine ⟨f, k, evs2, st, rfl, rfl, hmain, hcls, ?_⟩
        rw [hmain]
        show (Ev.postNote tmpNoteId reportTitle f tmpBody :: Ev.openNote tmpNoteId ::
            (((List.range' 1 k).map (fun p => Ev.listPage p pageSize))
              ++ evs2
              ++ [Ev.postNote reportNoteId reportTitle f
                    (renderReport st.notebookNames st.resourceData st.notebookSizes),
                  Ev.openNote reportNoteId, Ev.deleteNote tmpNoteId])).foldl noteStep []
          = [reportNoteId]
        rw [List.foldl_cons, List.foldl_cons, List.foldl_append, List.foldl_append,
          foldl_noteStep_const _ _ hpages, foldl_noteStep_const _ _ hcls]
        rfl

/-- Witness for C6 at a concrete one-resource environment. -/
theorem c6_lifecycle_witness :
    (getSpace envC1).2 = Except.ok () ∧
    (∃ f k evsB st,
      envC1.selFolder = some f ∧
      buildLoop envC1 envC1.store = (evsB, Except.ok st) ∧
      getSpace envC1
        = (Ev.postNote tmpNoteId reportTitle f tmpBody :: Ev.openNote tmpNoteId ::
            (((List.range' 1 k).map (fun p => Ev.listPage p pageSize))
              ++ evsB
              ++ [Ev.postNote reportNoteId reportTitle f
                    (renderReport st.notebookNames st.resourceData st.notebookSizes),
                  Ev.openNote reportNoteId, Ev.deleteNote tmpNoteId]),
           Except.ok ()) ∧
      (∀ e ∈ evsB, isPost e = false ∧ isDelete e = false) ∧
      notesAfter (getSpace envC1).1 = [reportNoteId]) :=
  ⟨rfl, c6_lifecycle envC1 rfl⟩

/-- C7: when a listing, linkage or notebook-fetch request fails, the error
propagates uncaught: the run ends in that error, no report is produced (one
post only, no delete, the placeholder note is left behind), and no request
is retried — the page requests are the consecutive pages 1..k, and with
duplicate-free resource ids no linkage request is issued twice. -/
theorem c7_failure (env : Env) (f : String)
    (hsel : env.selFolder = some f)
    (hfail : (getSpace env).2 ≠ Except.ok ()) :
    (∃ e, (getSpace env).2 = Except.error e) ∧
    (getSpace env).1.countP isPost = 1 ∧
    (getSpace env).1.countP isDelete = 0 ∧
    notesAfter (getSpace env).1 = [tmpNoteId] ∧
    (∃ k, (getSpace env).1.filter isListPage
        = (List.range' 1 k).map (fun p => Ev.listPage p pageSize)) ∧
    ((env.store.map Resource.id).Nodup → ((getSpace env).1.filter isFetchNotes).Nodup) := by
  rcases hc : collectResources env with ⟨evs1, r1⟩
  obtain ⟨k, hk⟩ := collect_events env
  rw [hc] at hk
  have hk1 : evs1 = (List.range' 1 k).map (fun p => Ev.listPage p pageSize) := hk
  cases r1 with
  | error e =>
    subst hk1
    have hmain : getSpace env
        = (Ev.postNote tmpNoteId reportTitle f tmpBody :: Ev.openNote tmpNoteId ::
            (List.range' 1 k).map (fun p => Ev.listPage p pageSize), Except.error e) := by
      simp [getSpace, hsel, hc]
    have hrest : ∀ e2 ∈ (List.range' 1 k).map (fun p => Ev.listPage p pageSize),
        isPost e2 = false ∧ isDelete e2 = false := by
      intro e2 he2
      obtain ⟨p, _, rfl⟩ := List.mem_map.mp he2
      exact ⟨rfl, rfl⟩
    obtain ⟨hcp, hcd, hna⟩ := orphan_trace_facts _ f tmpBody hrest
    refine ⟨⟨e, by rw [hmain]⟩, by rw [hmain]; exact hcp, by rw [hmain]; exact hcd,
      by rw [hmain]; exact hna, ⟨k, ?_⟩, ?_⟩
    · rw [hmain]
      show (Ev.postNote tmpNoteId reportTitle f tmpBody :: Ev.openNote tmpNoteId ::
          (List.range' 1 k).map (fun p => Ev.listPage p pageSize)).filter isListPage = _
      rw [List.filter_cons, List.filter_cons]
      simp only [isListPage, Bool.false_eq_true, if_false]
      exact filter_isListPage_map _
    · intro _
      rw [hmain]
      show ((Ev.postNote tmpNoteId reportTitle f tmpBody :: Ev.openNote tmpNoteId ::
          (List.range' 1 k).map (fun p => Ev.listPage p pageSize)).filter isFetchNotes).Nodup
      rw [List.filter_cons, List.filter_cons]
      simp only [isFetchNotes, Bool.false_eq_true, if_false]
      rw [filter_isFetchNotes_map_listPage]
      exact List.nodup_nil
  | ok resources =>
    have hres : resources = env.store := collect_ok_store env resources (by rw [hc])
    subst hres
    subst hk1
    rcases hbld : buildLoop env env.store with ⟨evs2, r2⟩
    cases r2 with
    | ok st =>
      exfalso
      apply hfail
      have hok : getSpace env
          = (Ev.postNote tmpNoteId reportTitle f tmpBody :: Ev.openNote tmpNoteId ::
              ((List.range' 1 k).map (fun p => Ev.listPage p pageSize) ++ evs2
                ++ [Ev.postNote reportNoteId reportTitle f
                      (renderReport st.notebookNames st.resourceData st.notebookSizes),
                    Ev.openNote reportNoteId, Ev.deleteNote tmpNoteId]),
             Except.ok ()) := by
        simp [getSpace, hsel, hc, hbld]
      rw [hok]
    | error e =>
      have hmain : getSpace env
          = (Ev.postNote tmpNoteId reportTitle f tmpBody :: Ev.openNote tmpNoteId ::
              ((List.range' 1 k).map (fun p => Ev.listPage p pageSize) ++ evs2),
             Except.error e) := by
        simp [getSpace, hsel, hc, hbld]
      have hb2 : procResources env ⟨[], [], []⟩ env.store = (evs2, Except.error e) := hbld
      have hcls2 : ∀ e2 ∈ evs2, isPost e2 = false ∧ isDelete e2 = false := by
        intro e2 he2
        exact (fetch_event_class e2 (procResources_events env env.store ⟨[], [], []⟩ evs2
          (Except.error e) hb2 e2 he2)).2
      have hrest : ∀ e2 ∈ (List.range' 1 k).map (fun p => Ev.listPage p pageSize) ++ evs2,
          isPost e2 = false ∧ isDelete e2 = false := by
        intro e2 he2
        rcases List.mem_append.mp he2 with hh | hh
        · obtain ⟨p, _, rfl⟩ := List.mem_map.mp hh
          exact ⟨rfl, rfl⟩
        · exact hcls2 e2 hh
      obtain ⟨hcp, hcd, hna⟩ := orphan_trace_facts _ f tmpBody hrest
      have hlp2 : evs2.filter isListPage = [] :=
        List.filter_eq_nil_iff.mpr (by
          intro e2 he2
          simp [(fetch_event_class e2 (procResources_events env env.store ⟨[], [], []⟩ evs2
            (Except.error e) hb2 e2 he2)).1])
      refine ⟨⟨e, by rw [hmain]⟩, by rw [hmain]; exact hcp, by rw [hmain]; exact hcd,
        by rw [hmain]; exact hna, ⟨k, ?_⟩, ?_⟩
      · rw [hmain]
        show (Ev.postNote tmpNoteId reportTitle f tmpBody :: Ev.openNote tmpNoteId ::
            ((List.range' 1 k).map (fun p => Ev.listPage p pageSize) ++ evs2)).filter isListPage = _
        rw [List.filter_cons, List.filter_cons]
        simp only [isListPage, Bool.false_eq_true, if_false]
        rw [List.filter_append, hlp2, filter_isListPage_map, List.append_nil]
      · intro hnodup
        obtain ⟨m, hm⟩ := procResources_fetchNotes env env.store ⟨[], [], []⟩ evs2 (Except.error e) hb2
        rw [hmain]
        show ((Ev.postNote tmpNoteId reportTitle f tmpBody :: Ev.openNote tmpNoteId ::
            ((List.range' 1 k).map (fun p => Ev.listPage p pageSize) ++ evs2)).filter isFetchNotes).Nodup
        rw [List.filter_cons, List.filter_cons]
        simp only [isFetchNotes, Bool.false_eq_true, if_false]
        rw [List.filter_append, filter_isFetchNotes_map_listPage, List.nil_append, hm]
        have hmap : (env.store.map (fun x => Ev.fetchNotes x.id)).Nodup := by
          have hinj : Function.Injective Ev.fetchNotes := by
            intro a b hab
            injection hab
          have hm2 : ((env.store.map Resource.id).map Ev.fetchNotes).Nodup :=
            hnodup.map hinj
          rw [List.map_map] at hm2
          exact hm2
        rw [List.map_take]
        exact (List.take_sublist m _).nodup hmap

/-- Witness for C7 at a concrete environment whose first page request
fails. -/
theorem c7_failure_witness :
    (envC7.selFolder = some "f0" ∧ (getSpace envC7).2 ≠ Except.ok ()) ∧
    ((∃ e, (getSpace envC7).2 = Except.error e) ∧
     (getSpace envC7).1.countP isPost = 1 ∧
     (getSpace envC7).1.countP isDelete = 0 ∧
     notesAfter (getSpace envC7).1 = [tmpNoteId] ∧
     (∃ k, (getSpace envC7).1.filter isListPage
         = (List.range' 1 k).map (fun p => Ev.listPage p pageSize)) ∧
     ((envC7.store.map Resource.id).Nodup → ((getSpace envC7).1.filter isFetchNotes).Nodup)) :=
  ⟨⟨rfl, by
      intro h
      have hval : (getSpace envC7).2 = Except.error (Err.listFail 1) := rfl
      rw [hval] at h
      exact Except.noConfusion h⟩,
   c7_failure envC7 "f0" rfl (by
      intro h
      have hval : (getSpace envC7).2 = Except.error (Err.listFail 1) := rfl
      rw [hval] at h
      exact Except.noConfusion h)⟩

/-- C10: with an empty store — or, more generally, when no resource has any
referencing note — the run still completes: a single collector pass over the
store is made, the report is published whose body is just the header line
and the table-of-contents marker, the placeholder is deleted, and in the
empty-store case exactly one page request (page 1) was issued. -/
theorem c10_empty (env : Env) (f : String)
    (hsel : env.selFolder = some f)
    (hL : ∀ p, env.failList p = false)
    (hN : ∀ s2, env.failNotes s2 = false)
    (hnone : ∀ r2 ∈ env.store, env.notesFor r2.id = []) :
    (getSpace env).2 = Except.ok () ∧
    getSpace env
      = (Ev.postNote tmpNoteId reportTitle f tmpBody :: Ev.openNote tmpNoteId ::
          (((List.range' 1 (reqCount env.store.length)).map (fun p => Ev.listPage p pageSize))
            ++ (env.store.map (fun r2 => Ev.fetchNotes r2.id))
            ++ [Ev.postNote reportNoteId reportTitle f headerStr,
                Ev.openNote reportNoteId, Ev.deleteNote tmpNoteId]),
         Except.ok ()) ∧
    notesAfter (getSpace env).1 = [reportNoteId] ∧
    (env.store = [] → (getSpace env).1.filter isListPage = [Ev.listPage 1 pageSize]) := by
  have hcol := collect_no_fail env hL
  have hbld : buildLoop env env.store
      = (env.store.map (fun r2 => Ev.fetchNotes r2.id), Except.ok ⟨[], [], []⟩) :=
    procResources_no_notes env hN env.store hnone ⟨[], [], []⟩
  have hrr : renderReport ([] : List (String × String)) [] [] = headerStr := by
    rw [renderReport]
    show headerStr ++ strJoin [] = headerStr
    simp [strJoin]
  have hmain : getSpace env
      = (Ev.postNote tmpNoteId reportTitle f tmpBody :: Ev.openNote tmpNoteId ::
          (((List.range' 1 (reqCount env.store.length)).map (fun p => Ev.listPage p pageSize))
            ++ (env.store.map (fun r2 => Ev.fetchNotes r2.id))
            ++ [Ev.postNote reportNoteId reportTitle f headerStr,
                Ev.openNote reportNoteId, Ev.deleteNote tmpNoteId]),
         Except.ok ()) := by
    simp [getSpace, hsel, hcol, hbld, hrr]
  have hpages : ∀ e ∈ (List.range' 1 (reqCount env.store.length)).map
      (fun p => Ev.listPage p pageSize), isPost e = false ∧ isDelete e = false := by
    intro e he
    obtain ⟨p, _, rfl⟩ := List.mem_map.mp he
    exact ⟨rfl, rfl⟩
  have hfetch : ∀ e ∈ env.store.map (fun r2 => Ev.fetchNotes r2.id),
      isPost e = false ∧ isDelete e = false := by
    intro e he
    obtain ⟨r2, _, rfl⟩ := List.mem_map.mp he
    exact ⟨rfl, rfl⟩
  refine ⟨by rw [hmain], hmain, ?_, ?_⟩
  · rw [hmain]
    show (Ev.postNote tmpNoteId reportTitle f tmpBody :: Ev.openNote tmpNoteId ::
        (((List.range' 1 (reqCount env.store.length)).map (fun p => Ev.listPage p pageSize))
          ++ (env.store.map (fun r2 => Ev.fetchNotes r2.id))
          ++ [Ev.postNote reportNoteId reportTitle f headerStr,
              Ev.openNote reportNoteId, Ev.deleteNote tmpNoteId])).foldl noteStep []
      = [reportNoteId]
    rw [List.foldl_cons, List.foldl_cons, List.foldl_append, List.foldl_append,
      foldl_noteStep_const _ _ hpages, foldl_noteStep_const _ _ hfetch]
    rfl
  · intro hst
    rw [hmain, hst]
    show (Ev.postNote tmpNoteId reportTitle f tmpBody :: Ev.openNote tmpNoteId ::
        (((List.range' 1 (reqCount (List.length ([] : List Resource)))).map
            (fun p => Ev.listPage p pageSize))
          ++ (([] : List Resource).map (fun r2 => Ev.fetchNotes r2.id))
          ++ [Ev.postNote reportNoteId reportTitle f headerStr,
              Ev.openNote reportNoteId, Ev.deleteNote tmpNoteId])).filter isListPage
      = [Ev.listPage 1 pageSize]
    rw [List.filter_cons, List.filter_cons]
    simp only [isListPage, Bool.false_eq_true, if_false]
    rw [List.filter_append, List.filter_append]
    have h1 : reqCount (List.length ([] : List Resource)) = 1 := by decide
    rw [h1]
    show ((List.range' 1 1).map (fun p => Ev.listPage p pageSize)).filter isListPage
        ++ (([] : List Ev).filter isListPage
        ++ ([Ev.postNote reportNoteId reportTitle f headerStr,
             Ev.openNote reportNoteId, Ev.deleteNote tmpNoteId]).filter isListPage)
      = [Ev.listPage 1 pageSize]
    rw [filter_isListPage_map]
    simp [isListPage, List.filter_cons, List.range']

/-- Witness for C10 at a concrete empty store. -/
theorem c10_empty_witness :
    (envC10.selFolder = some "f0" ∧ (∀ p, envC10.failList p = false) ∧
     (∀ s2, envC10.failNotes s2 = false) ∧ (∀ r2 ∈ envC10.store, envC10.notesFor r2.id = [])) ∧
    ((getSpace envC10).2 = Except.ok () ∧
     getSpace envC10
       = (Ev.postNote tmpNoteId reportTitle "f0" tmpBody :: Ev.openNote tmpNoteId ::
           (((List.range' 1 (reqCount envC10.store.length)).map (fun p => Ev.listPage p pageSize))
             ++ (envC10.store.map (fun r2 => Ev.fetchNotes r2.id))
             ++ [Ev.postNote reportNoteId reportTitle "f0" headerStr,
                 Ev.openNote reportNoteId, Ev.deleteNote tmpNoteId]),
          Except.ok ()) ∧
     notesAfter (getSpace envC10).1 = [reportNoteId] ∧
     (envC10.store = [] → (getSpace envC10).1.filter isListPage = [Ev.listPage 1 pageSize])) :=
  ⟨⟨rfl, fun _ => rfl, fun _ => rfl, fun r2 hr2 => by simp [envC10] at hr2⟩,
   c10_empty envC10 "f0" rfl (fun _ => rfl) (fun _ => rfl)
     (fun r2 hr2 => by simp [envC10] at hr2)⟩

end JoplinDu